import Mathlib

/-!
# alfred-bear, package `db`: a verification development

A shallow embedding of `db/db.go` (query templates, `Note`, `NoteList`, `BearDB`)
followed by theorems about it.

Conventions of the embedding

* Go strings are Lean `String`s; a Go slice is a `List`; the Go `int` limit is an `Int`.
* `map[Note]bool` is a finite association list with unique keys (`NoteMap`).
* A method with a pointer receiver that mutates its receiver returns the new
  receiver value.
* `fmt.Sprintf` is a library function. The package functions take it as the
  parameter `Sprintf`; `goSprintf` is an executable model of the part of
  `fmt` that the package's own format strings use, and `GoFmt Sprintf` says
  that a formatter agrees with Go on that part.
* The relational store is the `LiteDB` adapter at the interface `BearDB` calls
  (`QueryStrings`, `QueryStringMaps`): a call takes the SQL text and the store's
  current state and returns the pair (rows, error) with the next state.  The
  `World` carries, next to the store state, the log of the SQL texts handed
  to the store so far.
-/

namespace Db

/-! ## Query templates -/

def tagQuery : String :=
  "\n\tSELECT DISTINCT\n\t\tt.ZTITLE \n\tFROM \n\t\tZSFNOTE n \n\t\tINNER JOIN Z_5TAGS nt ON n.Z_PK = nt.Z_5NOTES \n\t\tINNER JOIN ZSFNOTETAG t ON nt.Z_10TAGS = t.Z_PK \n\tWHERE \n\t\tn.ZARCHIVED=0 \n\t\tAND n.ZTRASHED=0 \n\t\tAND lower(t.ZTITLE) LIKE lower('%%%v%%')\n\tORDER BY \n\t\tt.ZMODIFICATIONDATE DESC \n"

def recentQuery : String :=
  "\n\tSELECT DISTINCT\n\t\tZUNIQUEIDENTIFIER, ZTITLE \n\tFROM \n\t\tZSFNOTE \n\tWHERE \n\t\tZARCHIVED=0 \n\t\tAND ZTRASHED=0 \n\tORDER BY \n\t\tZMODIFICATIONDATE DESC \n"

def titleByIDQuery : String :=
  "\n\tSELECT DISTINCT\n\t\tZTITLE \n\tFROM \n\t\tZSFNOTE \n\tWHERE \n\t\tZARCHIVED=0 \n\t\tAND ZTRASHED=0 \n\t\tAND ZUNIQUEIDENTIFIER='%v' \n\tORDER BY \n\t\tZMODIFICATIONDATE DESC \n"

def notesByTitleQuery : String :=
  "\n\tSELECT DISTINCT\n\t\tZUNIQUEIDENTIFIER, ZTITLE \n\tFROM \n\t\tZSFNOTE \n\tWHERE \n\t\tZARCHIVED=0 \n\t\tAND ZTRASHED=0 \n\t\tAND lower(ZTITLE) LIKE lower('%%%v%%')\n\tORDER BY \n\t\tZMODIFICATIONDATE DESC \n"

def notesByTextQuery : String :=
  "\n\tSELECT DISTINCT\n\t\tZUNIQUEIDENTIFIER, ZTITLE \n\tFROM \n\t\tZSFNOTE \n\tWHERE \n\t\tZARCHIVED=0 \n\t\tAND ZTRASHED=0 \n\t\tAND lower(ZTEXT) LIKE lower('%%%v%%')\n\tORDER BY \n\t\tZMODIFICATIONDATE DESC \n"

/-! ## Note -/

/-- The struct `Note`: two string fields, compared field by field. -/
structure Note where
  ID : String
  Title : String
  deriving DecidableEq, Repr

/-! ## NoteList -/

/-- A Go `map[Note]bool`: the bindings in insertion order, one per key. -/
abbrev NoteMap := List (Note × Bool)

/-- The comma-ok lookup `_, exists := m[n]`: whether `n` is a key of `m`. -/
def NoteMap.has (m : NoteMap) (n : Note) : Bool :=
  m.any (fun p => decide (p.1 = n))

/-- The assignment `m[n] = b`: overwrite the binding of `n`, or add one. -/
def NoteMap.assign (m : NoteMap) (n : Note) (b : Bool) : NoteMap :=
  if m.has n then m.map (fun p => if p.1 = n then (n, b) else p) else m ++ [(n, b)]

/-- The builtin `len(m)`: the number of keys. -/
def NoteMap.len (m : NoteMap) : Nat := m.length

/-- The struct `NoteList`. -/
structure NoteList where
  set : NoteMap
  slice : List Note
  deriving DecidableEq, Repr

def NewNoteList : NoteList :=
  { set := [], slice := [] }

def NoteList.Contains (notes : NoteList) (n : Note) : Bool :=
  notes.set.has n

/-- One iteration of the loop of `AppendNew`. -/
def NoteList.appendOne (notes : NoteList) (n : Note) : NoteList :=
  if !notes.Contains n then
    { slice := notes.slice ++ [n], set := notes.set.assign n true }
  else notes

/-- The method `AppendNew(other ...Note)`: the loop over `other`, left to right. -/
def NoteList.AppendNew (notes : NoteList) (other : List Note) : NoteList :=
  other.foldl NoteList.appendOne notes

def NoteList.AppendNewFrom (notes : NoteList) (other : NoteList) : NoteList :=
  notes.AppendNew other.slice

def NoteList.GetSlice (notes : NoteList) : List Note :=
  notes.slice

/-- The method `Get(i)`: indexing the slice; `none` where Go panics (index out of range). -/
def NoteList.Get (notes : NoteList) (i : Int) : Option Note :=
  if 0 ≤ i then notes.slice.get? i.toNat else none

def NoteList.Len (notes : NoteList) : Int :=
  notes.slice.length

/-! ## Library functions: `strings.Split`, `strings.Join`, `fmt.Sprintf` -/

/-- The scan of `strings.Split` for a non-empty separator: the pieces between the
non-overlapping occurrences of `sep`, found left to right.  The counter is the
number of characters of a matched separator still to be skipped. -/
def splitChars (sep : List Char) : Nat → List Char → List (List Char)
  | _, [] => [[]]
  | k + 1, _ :: cs => splitChars sep k cs
  | 0, c :: cs =>
    if sep.isPrefixOf (c :: cs) then [] :: splitChars sep (sep.length - 1) cs
    else
      match splitChars sep 0 cs with
      | [] => [[c]]
      | w :: ws => (c :: w) :: ws

/-- The function `strings.Split(s, sep)`; an empty separator splits after each character. -/
def Split (s sep : String) : List String :=
  if sep.data = [] then s.data.map (fun c => String.mk [c])
  else (splitChars sep.data 0 s.data).map String.mk

/-- The function `strings.Join(elems, sep)`. -/
def Join : List String → String → String
  | [], _ => ""
  | [a], _ => a
  | a :: b :: rest, sep => a ++ sep ++ Join (b :: rest) sep

/-- An operand of a formatting call: the package passes strings and the `int` limit. -/
inductive Operand where
  | str (s : String)
  | int (i : Int)
  deriving DecidableEq, Repr

/-- The Go type name of an operand, as `%!(EXTRA ...)` prints it. -/
def Operand.goType : Operand → String
  | .str _ => "string"
  | .int _ => "int"

/-- The `%v` rendering of an operand: a string as it is, an int in decimal. -/
def Operand.value : Operand → String
  | .str s => s
  | .int i => toString i

/-- What a verb prints for an operand: `%v` and `%s` print a string unchanged, `%v` and
`%d` print an int in decimal.  Other combinations are outside the model (`none`). -/
def Operand.print (verb : Char) : Operand → Option (List Char)
  | .str s => if verb = 'v' ∨ verb = 's' then some s.data else none
  | .int i => if verb = 'v' ∨ verb = 'd' then some (toString i).data else none

/-- The text `%!(EXTRA type=value, ...)` that `fmt` appends for operands no verb consumed. -/
def extraOperands : List Operand → List Char
  | [] => []
  | a :: as =>
    "%!(EXTRA ".data ++
      (Join ((a :: as).map (fun x => x.goType ++ "=" ++ x.value)) ", ").data ++ ")".data

/-- The formatting loop of `fmt` on the directives `%%`, `%v`, `%s`, `%d`: text outside a
directive is copied, `%%` prints a percent sign and consumes no operand, a verb prints the
next operand, `%!verb(MISSING)` stands for a verb without operand and `%!(NOVERB)` for a
percent sign that ends the format.  A directive with a flag, a width, a precision, an
argument index or another verb is outside the model: the result is `none`. -/
def doPrintf : List Char → List Operand → Option (List Char)
  | [], a => some (extraOperands a)
  | c :: rest, a =>
    if c = '%' then
      match rest, a with
      | [], a => some ("%!(NOVERB)".data ++ extraOperands a)
      | verb :: rest, a =>
        if verb = '%' then (doPrintf rest a).map (fun out => '%' :: out)
        else if verb = 'v' ∨ verb = 's' ∨ verb = 'd' then
          match a with
          | [] => (doPrintf rest []).map (fun out => ['%', '!', verb] ++ "(MISSING)".data ++ out)
          | x :: a =>
            match x.print verb with
            | none => none
            | some printed => (doPrintf rest a).map (fun out => printed ++ out)
        else none
    else (doPrintf rest a).map (fun out => c :: out)

/-- The modelled part of `fmt.Sprintf(format, a...)`. -/
def goSprintf (format : String) (a : List Operand) : Option String :=
  (doPrintf format.data a).map String.mk

/-- A formatting function, as the package uses `fmt.Sprintf` and `fmt.Errorf`. -/
abbrev Formatter := String → List Operand → String

/-- The formatter `Sprintf` agrees with `fmt` wherever the model `goSprintf` is defined. -/
def GoFmt (Sprintf : Formatter) : Prop :=
  ∀ format a out, goSprintf format a = some out → Sprintf format a = out

/-- A formatter that follows the model: used to instantiate `GoFmt`. -/
def modelSprintf : Formatter :=
  fun format a => (goSprintf format a).getD ""

/-! ## The store -/

/-- A row of `QueryStringMaps`, a `map[string]string`. -/
abbrev Row := List (String × String)

/-- The index expression `m[k]` of a `map[string]string`: the zero value when `k` is absent. -/
def Row.at (m : Row) (k : String) : String :=
  (m.lookup k).getD ""

/-- The adapter `LiteDB` at the interface `BearDB` uses: each method takes the SQL text and
the state of the store, and returns the rows, the error (`none` is `nil`) and the next state. -/
structure LiteDB (σ ε : Type) where
  QueryStringMaps : String → σ → (List Row × Option ε) × σ
  QueryStrings : String → σ → (List String × Option ε) × σ

/-- A Go `error` value seen by a caller of `BearDB`: an error of the store, or one made by
`fmt.Errorf` with the given message. -/
inductive GoError (ε : Type) where
  | lower (e : ε)
  | errorf (msg : String)
  deriving DecidableEq, Repr

/-- The store's state and the SQL texts handed to the store so far, oldest first. -/
structure World (σ : Type) where
  store : σ
  log : List String

/-! ## BearDB -/

/-- The struct `BearDB`. -/
structure BearDB (σ ε : Type) where
  lite : LiteDB σ ε
  limit : Int

/-- The constructor `NewBearDB`.  Expanding the path and opening the database belong to
the host: their outcome, the adapter and the error of `NewLiteDB`, is the argument. -/
def NewBearDB {σ ε : Type} (lite : LiteDB σ ε) (err : Option ε) :
    BearDB σ ε × Option (GoError ε) :=
  let limit := 25
  let db : BearDB σ ε := { lite := lite, limit := limit }
  (db, err.map GoError.lower)

section Orchestrator

variable {σ ε : Type}

/-- The call `db.lite.QueryStrings(q)`: the store answers and `q` is logged. -/
def BearDB.liteQueryStrings (db : BearDB σ ε) (q : String) (w : World σ) :
    (List String × Option (GoError ε)) × World σ :=
  let r := db.lite.QueryStrings q w.store
  ((r.1.1, r.1.2.map GoError.lower), { store := r.2, log := w.log ++ [q] })

/-- The call `db.lite.QueryStringMaps(q)`: the store answers and `q` is logged. -/
def BearDB.liteQueryStringMaps (db : BearDB σ ε) (q : String) (w : World σ) :
    (List Row × Option (GoError ε)) × World σ :=
  let r := db.lite.QueryStringMaps q w.store
  ((r.1.1, r.1.2.map GoError.lower), { store := r.2, log := w.log ++ [q] })

def BearDB.limitQuery (Sprintf : Formatter) (db : BearDB σ ε) (q : String) : String :=
  Sprintf "%s LIMIT %v" [.str q, .int db.limit]

def BearDB.SearchTags (Sprintf : Formatter) (db : BearDB σ ε) (s : String) (w : World σ) :
    (List String × Option (GoError ε)) × World σ :=
  let q := Sprintf tagQuery [.str s]
  let q := db.limitQuery Sprintf q
  let r := db.liteQueryStrings q w
  let tags := r.1.1
  let err := r.1.2
  ((tags, err), r.2)

def toNoteSlice (maps : List Row) : List Note :=
  maps.foldl
    (fun notes m =>
      let n : Note := { ID := m.at "ZUNIQUEIDENTIFIER", Title := m.at "ZTITLE" }
      notes ++ [n])
    []

def BearDB.QueryNotes (Sprintf : Formatter) (db : BearDB σ ε) (query : String) (w : World σ) :
    (NoteList × Option (GoError ε)) × World σ :=
  let q := db.limitQuery Sprintf query
  let r := db.liteQueryStringMaps q w
  let maps := r.1.1
  let err := r.1.2
  let notes := NewNoteList
  if err.isSome then ((notes, err), r.2)
  else
    let slice := toNoteSlice maps
    let notes := notes.AppendNew slice
    ((notes, err), r.2)

def BearDB.GetRecent (Sprintf : Formatter) (db : BearDB σ ε) (w : World σ) :
    (NoteList × Option (GoError ε)) × World σ :=
  db.QueryNotes Sprintf recentQuery w

def BearDB.GetTitle (Sprintf : Formatter) (db : BearDB σ ε) (id : String) (w : World σ) :
    (String × Option (GoError ε)) × World σ :=
  let q := Sprintf titleByIDQuery [.str id]
  let q := db.limitQuery Sprintf q
  let r := db.liteQueryStrings q w
  let titles := r.1.1
  let err := r.1.2
  if err.isSome then (("", err), r.2)
  else
    match titles with
    | [] => (("", some (GoError.errorf (Sprintf "No notes for ID '%v'" [.str id]))), r.2)
    | first :: _ => ((first, err), r.2)

def BearDB.gapQuery (Sprintf : Formatter) (db : BearDB σ ε) (template fill : String)
    (w : World σ) : (NoteList × Option (GoError ε)) × World σ :=
  let q := Sprintf template [.str fill]
  let r := db.QueryNotes Sprintf q w
  let notes := r.1.1
  let err := r.1.2
  if err.isSome then ((notes, err), r.2)
  else
    let split := Split fill " "
    if split.length > 1 then
      -- word gap search
      let join := Join split "% %"
      let q := Sprintf template [.str join]
      let r2 := db.QueryNotes Sprintf q r.2
      let moreNotes := r2.1.1
      let err2 := r2.1.2
      if err2.isSome then ((notes, err2), r2.2)
      else ((notes.AppendNewFrom moreNotes, err), r2.2)
    else ((notes, err), r.2)

def BearDB.SearchNotesByTitle (Sprintf : Formatter) (db : BearDB σ ε) (title : String)
    (w : World σ) : (NoteList × Option (GoError ε)) × World σ :=
  db.gapQuery Sprintf notesByTitleQuery title w

def BearDB.SearchNotesByText (Sprintf : Formatter) (db : BearDB σ ε) (text : String)
    (w : World σ) : (NoteList × Option (GoError ε)) × World σ :=
  db.gapQuery Sprintf notesByTextQuery text w

def BearDB.SearchNotes (Sprintf : Formatter) (db : BearDB σ ε) (text : String)
    (w : World σ) : (NoteList × Option (GoError ε)) × World σ :=
  let r := db.SearchNotesByTitle Sprintf text w
  let titleNotes := r.1.1
  let err := r.1.2
  if err.isSome then ((titleNotes, err), r.2)
  else
    let r2 := db.SearchNotesByText Sprintf text r.2
    let textNotes := r2.1.1
    let err := r2.1.2
    if err.isSome then ((titleNotes, err), r2.2)
    else ((titleNotes.AppendNewFrom textNotes, err), r2.2)

end Orchestrator

/-! ## Notions used to state the properties -/

/-- The distinct values of a list, each kept at its first occurrence. -/
def firstOccurrences : List Note → List Note
  | [] => []
  | x :: xs => x :: (firstOccurrences xs).filter (fun y => decide (y ≠ x))

/-- Set and slice agree: the keys of the set are the elements of the slice. -/
def NoteList.Consistent (notes : NoteList) : Prop :=
  ∀ n, notes.Contains n = true ↔ n ∈ notes.slice

/-- A mutating call on a `NoteList`. -/
inductive NoteListCall where
  | appendNew (other : List Note)
  | appendNewFrom (other : NoteList)

/-- The notes a call offers to the list, in order. -/
def NoteListCall.notes : NoteListCall → List Note
  | .appendNew other => other
  | .appendNewFrom other => other.GetSlice

/-- The effect of one call on the receiver. -/
def NoteListCall.run (notes : NoteList) : NoteListCall → NoteList
  | .appendNew other => notes.AppendNew other
  | .appendNewFrom other => notes.AppendNewFrom other

/-- The effect of a sequence of calls on one receiver. -/
def runCalls (notes : NoteList) (calls : List NoteListCall) : NoteList :=
  calls.foldl NoteListCall.run notes

/-! ## Stores used as concrete instances -/

/-- A store that answers from a script: the call number `n` (from 0) of either method gets
the entry number `n` of the script of that method, and an empty success past its end. -/
def scriptedLite (maps : List (List Row × Option String))
    (strings : List (List String × Option String)) : LiteDB Nat String where
  QueryStringMaps := fun _ n => (maps.getD n ([], none), n + 1)
  QueryStrings := fun _ n => (strings.getD n ([], none), n + 1)

/-- The row of a note, as `QueryStringMaps` delivers it. -/
def noteRow (id title : String) : Row :=
  [("ZUNIQUEIDENTIFIER", id), ("ZTITLE", title)]

/-- The world before any call: the scripted store at call 0 and an empty log. -/
def world0 : World Nat := { store := 0, log := [] }

/-- The `BearDB` that `NewBearDB` builds over a scripted store. -/
def scriptedDB (maps : List (List Row × Option String))
    (strings : List (List String × Option String)) : BearDB Nat String :=
  (NewBearDB (scriptedLite maps strings) none).1

/-- A scripted store for the search `a b`: both title queries find nothing, the exact text
query finds one note, and the word-gap text query fails. -/
def gapFailDB : BearDB Nat String :=
  scriptedDB [([], none), ([], none), ([noteRow "7" "n"], none), ([], some "locked")] []

/-! ## Notions used to state the properties of the queries -/

/-- A contains-filter on a column: `lower(column) LIKE lower('%s%')`. -/
def likeFilter (column s : String) : String :=
  "lower(" ++ column ++ ") LIKE lower('%" ++ s ++ "%')"

/-- The text of the two note templates before their filter on the input. -/
def notesSelect : String :=
  "\n\tSELECT DISTINCT\n\t\tZUNIQUEIDENTIFIER, ZTITLE \n\tFROM \n\t\tZSFNOTE \n\tWHERE \n\t\tZARCHIVED=0 \n\t\tAND ZTRASHED=0 \n\t\tAND "

/-- The text of the two note templates after their filter on the input. -/
def notesOrder : String :=
  "\n\tORDER BY \n\t\tZMODIFICATIONDATE DESC \n"

/-- The text of the tag template before its filter on the input. -/
def tagSelect : String :=
  "\n\tSELECT DISTINCT\n\t\tt.ZTITLE \n\tFROM \n\t\tZSFNOTE n \n\t\tINNER JOIN Z_5TAGS nt ON n.Z_PK = nt.Z_5NOTES \n\t\tINNER JOIN ZSFNOTETAG t ON nt.Z_10TAGS = t.Z_PK \n\tWHERE \n\t\tn.ZARCHIVED=0 \n\t\tAND n.ZTRASHED=0 \n\t\tAND "

/-- The text of the tag template after its filter on the input. -/
def tagOrder : String :=
  "\n\tORDER BY \n\t\tt.ZMODIFICATIONDATE DESC \n"

/-- A public operation of `BearDB` with its argument. -/
inductive Request where
  | searchTags (s : String)
  | getRecent
  | getTitle (id : String)
  | searchNotesByTitle (title : String)
  | searchNotesByText (text : String)
  | searchNotes (text : String)

/-- The world after a public operation has run. -/
def Request.after {σ ε : Type} (Sprintf : Formatter) (db : BearDB σ ε) :
    Request → World σ → World σ
  | .searchTags s, w => (db.SearchTags Sprintf s w).2
  | .getRecent, w => (db.GetRecent Sprintf w).2
  | .getTitle id, w => (db.GetTitle Sprintf id w).2
  | .searchNotesByTitle title, w => (db.SearchNotesByTitle Sprintf title w).2
  | .searchNotesByText text, w => (db.SearchNotesByText Sprintf text w).2
  | .searchNotes text, w => (db.SearchNotes Sprintf text w).2

/-- A query text before the cap: the recent template, or one of the four templates with a
slot, filled with some string. -/
def FilledTemplate (Sprintf : Formatter) (q : String) : Prop :=
  q = recentQuery ∨
    ∃ T, T ∈ [tagQuery, titleByIDQuery, notesByTitleQuery, notesByTextQuery] ∧
      ∃ fill, q = Sprintf T [.str fill]

/-- A well-formed `NoteList`: set and slice agree and no note is twice in the slice. -/
def NoteList.WellFormed (notes : NoteList) : Prop :=
  notes.Consistent ∧ notes.slice.Nodup

/-! ## Notions used to state the propagation of errors -/

/-- The outcomes (`none` is success) and the final state when the queries `qs` are put to
`QueryStringMaps` one after the other, starting in the state `s`. -/
def LiteDB.replayMaps {σ ε : Type} (lite : LiteDB σ ε) : List String → σ → List (Option ε) × σ
  | [], s => ([], s)
  | q :: qs, s =>
    ((lite.QueryStringMaps q s).1.2 :: (replayMaps lite qs (lite.QueryStringMaps q s).2).1,
      (replayMaps lite qs (lite.QueryStringMaps q s).2).2)

/-- The outcomes and the final state when the queries `qs` are put to `QueryStrings` one
after the other, starting in the state `s`. -/
def LiteDB.replayStrings {σ ε : Type} (lite : LiteDB σ ε) :
    List String → σ → List (Option ε) × σ
  | [], s => ([], s)
  | q :: qs, s =>
    ((lite.QueryStrings q s).1.2 :: (replayStrings lite qs (lite.QueryStrings q s).2).1,
      (replayStrings lite qs (lite.QueryStrings q s).2).2)

/-- The first error in a list of outcomes. -/
def firstError {ε : Type} : List (Option ε) → Option ε
  | [] => none
  | some e :: _ => some e
  | none :: rest => firstError rest

/-- An operation that ran from the world `w` to the world `w'` and returned `err`
propagates the errors of the store: the queries it handed to the store, put to the store
in order from the state of `w`, lead to the state of `w'`; `err` is non-nil exactly when
one of them failed; `err` is the error of the first that failed; and only the last of them
can have failed, so that no query follows a failure. -/
def ErrorsPropagate {σ ε : Type} (replay : List String → σ → List (Option ε) × σ)
    (w w' : World σ) (err : Option (GoError ε)) : Prop :=
  ∃ qs, w'.log = w.log ++ qs ∧ w'.store = (replay qs w.store).2 ∧
    (err.isSome = true ↔ ∃ o, o ∈ (replay qs w.store).1 ∧ o.isSome = true) ∧
    err = (firstError (replay qs w.store).1).map GoError.lower ∧
    ∀ i, i + 1 < (replay qs w.store).1.length → (replay qs w.store).1.get? i = some none

/-- A run of queries in which all but the last succeed, the last having the outcome that
the operation returns. -/
def QueryChain {σ ε : Type} (replay : List String → σ → List (Option ε) × σ)
    (w w' : World σ) (err : Option (GoError ε)) : Prop :=
  ∃ qs k o, w'.log = w.log ++ qs ∧ w'.store = (replay qs w.store).2 ∧
    (replay qs w.store).1 = List.replicate k none ++ [o] ∧ err = o.map GoError.lower

/-! ## Notions used to state the word-gap pattern -/

/-- Every space of a character list replaced by the three characters `% %`. -/
def replaceSpaceChars : List Char → List Char
  | [] => []
  | c :: cs =>
    if c = ' ' then '%' :: ' ' :: '%' :: replaceSpaceChars cs else c :: replaceSpaceChars cs

/-- The string `F` with every space character replaced by `% %`. -/
def replaceSpaces (F : String) : String :=
  String.mk (replaceSpaceChars F.data)

/-- A store that answers every query with 25 rows and never the same note twice: the call
number `n` returns the notes numbered from `25 * n` to `25 * n + 24`. -/
def freshLite : LiteDB Nat String where
  QueryStringMaps := fun _ n =>
    (((List.range 25).map (fun i => noteRow (toString (25 * n + i)) "t"), none), n + 1)
  QueryStrings := fun _ n => (([], none), n + 1)

/-- The `BearDB` that `NewBearDB` builds over `freshLite`. -/
def freshDB : BearDB Nat String :=
  (NewBearDB freshLite none).1

/-! ## The conversions of the adapter -/

/-- A column value as `lite.Query` delivers it, an `interface{}`: a byte sequence
(`[]uint8`, each element a number below 256), or a value of another dynamic type. -/
inductive RawValue where
  | bytes (bs : List Nat)
  | other
  deriving DecidableEq, Repr

/-- A row of `lite.Query`, a `map[string]interface{}`: its columns, in the order in which
a `range` loop visits them. -/
abbrev RawRow := List (String × RawValue)

/-- The type assertion `v.([]uint8)`: `none` where Go panics. -/
def RawValue.asBytes : RawValue → Option (List Nat)
  | .bytes bs => some bs
  | .other => none

/-- The loop of `B2S` from the index `i` on: `b[i] = byte(v)` for each remaining `v`. -/
def B2S.loop : Nat → List Nat → List Nat → List Nat
  | _, [], b => b
  | i, v :: rest, b => B2S.loop (i + 1) rest (b.set i (v % 256))

/-- The function `B2S`.  The Go string it returns is given by its bytes. -/
def B2S (bs : List Nat) : List Nat :=
  let b := List.replicate bs.length 0
  B2S.loop 0 bs b

/-- The adapter `LiteDB` below its conversions: what the method `Query` returns for a SQL
text in a state of the store, namely the raw rows, the error and the next state. -/
structure RawLiteDB (σ ε : Type) where
  Query : String → σ → (List RawRow × Option ε) × σ

/-- The inner loop of `QueryStrings` over the columns of one row: `s` starts empty and
each column overwrites it; `none` where a type assertion panics. -/
def rowString (iMap : RawRow) : Option (List Nat) :=
  iMap.foldl
    (fun s kv =>
      match s with
      | none => none
      | some _ => kv.2.asBytes.map B2S)
    (some [])

/-- The method `QueryStrings` of the adapter, each string given by its bytes; `none`
where it panics. -/
def RawLiteDB.QueryStrings {σ ε : Type} (lite : RawLiteDB σ ε) (q : String) (st : σ) :
    Option ((List (List Nat) × Option ε) × σ) :=
  let sResults : List (List Nat) := []
  let r := lite.Query q st
  let iResults := r.1.1
  let err := r.1.2
  if err.isSome then some ((sResults, err), r.2)
  else
    (iResults.foldl
      (fun acc iMap =>
        match acc, rowString iMap with
        | some sResults, some s => some (sResults ++ [s])
        | _, _ => none)
      (some sResults)).map (fun sResults => ((sResults, err), r.2))

/-- A raw row of a single-column query: no column, or one column holding bytes. -/
def SingleColumn (row : RawRow) : Prop :=
  row = [] ∨ ∃ k bs, row = [(k, RawValue.bytes bs)] ∧ ∀ b, b ∈ bs → b < 256

/-- The bytes of the column of a single-column row, none for a row without column. -/
def columnBytes : RawRow → List Nat
  | [(_, .bytes bs)] => bs
  | _ => []

/-! ## How the store reads a query

A model of the part of SQL that the note templates use, as SQLite reads it: the tokens of
the query text, the `WHERE` clause between the keywords `WHERE` and `ORDER`, and its
condition, a disjunction of conjunctions of comparisons.  A query outside this part has
no reading (`none`). -/

/-- A row of the table `ZSFNOTE`, with the columns that the templates name. -/
structure NoteRecord where
  ZUNIQUEIDENTIFIER : String
  ZTITLE : String
  ZTEXT : String
  ZARCHIVED : Int
  ZTRASHED : Int

/-- A token of a SQL text: a word (a name, a keyword or a number), a string literal with
its content, or another character. -/
inductive Token where
  | word (w : List Char)
  | str (s : List Char)
  | sym (c : Char)
  deriving DecidableEq, Repr

/-- What the tokenizer is reading: nothing, a word, the inside of a string literal, or a
quote seen inside a string literal, which ends it unless a second quote follows. -/
inductive LexMode where
  | blank
  | inWord (acc : List Char)
  | inStr (acc : List Char)
  | quoteSeen (acc : List Char)
  deriving DecidableEq, Repr

/-- The state of the tokenizer: the tokens read so far and the mode. -/
structure LexState where
  toks : List Token
  mode : LexMode
  deriving DecidableEq, Repr

/-- A character of a word: a letter, a digit, an underscore or a dot. -/
def isWordChar (c : Char) : Bool :=
  c.isAlphanum || c = '_' || c = '.'

/-- A step of the tokenizer outside a word and outside a string literal. -/
def lexBlank (toks : List Token) (c : Char) : LexState :=
  if c = '\'' then { toks := toks, mode := .inStr [] }
  else if isWordChar c then { toks := toks, mode := .inWord [c] }
  else if c.isWhitespace then { toks := toks, mode := .blank }
  else { toks := toks ++ [.sym c], mode := .blank }

/-- A step of the tokenizer.  Inside a string literal every character but the quote is
content; a doubled quote is a quote of the content; a single quote ends the literal. -/
def lexStep (st : LexState) (c : Char) : LexState :=
  match st.mode with
  | .blank => lexBlank st.toks c
  | .inWord acc =>
    if isWordChar c then { toks := st.toks, mode := .inWord (acc ++ [c]) }
    else lexBlank (st.toks ++ [.word acc]) c
  | .inStr acc =>
    if c = '\'' then { toks := st.toks, mode := .quoteSeen acc }
    else { toks := st.toks, mode := .inStr (acc ++ [c]) }
  | .quoteSeen acc =>
    if c = '\'' then { toks := st.toks, mode := .inStr (acc ++ ['\'']) }
    else lexBlank (st.toks ++ [.str acc]) c

/-- The end of the text: an open word or a closed literal is a last token; a literal
still open has no reading. -/
def lexEnd (st : LexState) : Option (List Token) :=
  match st.mode with
  | .blank => some st.toks
  | .inWord acc => some (st.toks ++ [.word acc])
  | .inStr _ => none
  | .quoteSeen acc => some (st.toks ++ [.str acc])

/-- The tokens of a SQL text. -/
def sqlTokens (q : String) : Option (List Token) :=
  lexEnd (q.data.foldl lexStep { toks := [], mode := .blank })

/-- Whether a token is the keyword `kw` (given in upper case), in any case. -/
def Token.isKw (kw : String) : Token → Bool
  | .word w => decide (w.map Char.toUpper = kw.data)
  | _ => false

/-- The tokens after the first keyword `kw`. -/
def afterKeyword (kw : String) : List Token → Option (List Token)
  | [] => none
  | t :: ts => if t.isKw kw then some ts else afterKeyword kw ts

/-- The tokens before the first keyword `kw`. -/
def beforeKeyword (kw : String) : List Token → Option (List Token)
  | [] => none
  | t :: ts => if t.isKw kw then some [] else (beforeKeyword kw ts).map (fun r => t :: r)

/-- The tokens of the `WHERE` clause: those between `WHERE` and the next `ORDER`. -/
def whereTokens (ts : List Token) : Option (List Token) :=
  (afterKeyword "WHERE" ts).bind (beforeKeyword "ORDER")

/-- The pieces of a token list between the occurrences of the keyword `kw`. -/
def splitKeyword (kw : String) : List Token → List (List Token)
  | [] => [[]]
  | t :: ts =>
    if t.isKw kw then [] :: splitKeyword kw ts
    else
      match splitKeyword kw ts with
      | [] => [[t]]
      | p :: ps => (t :: p) :: ps

/-- A SQL value: an integer or a text. -/
inductive SqlValue where
  | int (i : Int)
  | text (s : List Char)
  deriving DecidableEq, Repr

/-- The number that a word of digits writes. -/
def digitsValue : List Char → Nat → Option Nat
  | [], n => some n
  | c :: cs, n => if c.isDigit then digitsValue cs (10 * n + (c.toNat - '0'.toNat)) else none

/-- The value of a word in a row: a number, or the value of the column of that name. -/
def wordValue (row : NoteRecord) (w : List Char) : Option SqlValue :=
  match w with
  | [] => none
  | c :: cs =>
    if c.isDigit then (digitsValue (c :: cs) 0).map (fun n => .int n)
    else if w = "ZARCHIVED".data then some (.int row.ZARCHIVED)
    else if w = "ZTRASHED".data then some (.int row.ZTRASHED)
    else if w = "ZTITLE".data then some (.text row.ZTITLE.data)
    else if w = "ZTEXT".data then some (.text row.ZTEXT.data)
    else if w = "ZUNIQUEIDENTIFIER".data then some (.text row.ZUNIQUEIDENTIFIER.data)
    else none

/-- The SQL function `lower`: the text in lower case; a number is left as it is. -/
def sqlLower : SqlValue → SqlValue
  | .text s => .text (s.map Char.toLower)
  | .int i => .int i

/-- The value of an operand: a word, a string literal, or `lower(...)` of one of them. -/
def operandValue (row : NoteRecord) : List Token → Option SqlValue
  | [.word w] => wordValue row w
  | [.str s] => some (.text s)
  | [f, .sym '(', .word w, .sym ')'] =>
    if f.isKw "LOWER" then (wordValue row w).map sqlLower else none
  | [f, .sym '(', .str s, .sym ')'] =>
    if f.isKw "LOWER" then some (sqlLower (.text s)) else none
  | _ => none

/-- The operator `LIKE`: `%` in the pattern stands for any text, `_` for one character,
and letters match in any case. -/
def likeMatch : List Char → List Char → Bool
  | [], t => t.isEmpty
  | c :: p, t =>
    if c = '%' then t.tails.any (fun u => likeMatch p u)
    else
      match t with
      | [] => false
      | d :: t' => (c = '_' || c.toLower = d.toLower) && likeMatch p t'

/-- The comparison `a = b`. -/
def sqlEq (a b : SqlValue) : Bool :=
  decide (a = b)

/-- The comparison `a LIKE b`, `b` being the pattern. -/
def sqlLike : SqlValue → SqlValue → Bool
  | .text t, .text p => likeMatch p t
  | _, _ => false

/-- The tokens before the first comparison operator, the operator, and the tokens after
it. -/
def splitComparison : List Token → Option (List Token × Token × List Token)
  | [] => none
  | t :: ts =>
    if t = .sym '=' || t.isKw "LIKE" then some ([], t, ts)
    else (splitComparison ts).map (fun r => (t :: r.1, r.2.1, r.2.2))

/-- The truth value of a comparison `operand = operand` or `operand LIKE operand`. -/
def comparisonValue (row : NoteRecord) (ts : List Token) : Option Bool :=
  match splitComparison ts with
  | none => none
  | some (lhs, op, rhs) =>
    match operandValue row lhs, operandValue row rhs with
    | some a, some b => some (if op = .sym '=' then sqlEq a b else sqlLike a b)
    | _, _ => none

/-- The conjunction of the truth values of a list of comparisons. -/
def allTrue (row : NoteRecord) : List (List Token) → Option Bool
  | [] => some true
  | c :: cs =>
    match comparisonValue row c, allTrue row cs with
    | some a, some b => some (a && b)
    | _, _ => none

/-- The disjunction of the truth values of a list of conjunctions. -/
def anyTrue (row : NoteRecord) : List (List Token) → Option Bool
  | [] => some false
  | d :: ds =>
    match allTrue row (splitKeyword "AND" d), anyTrue row ds with
    | some a, some b => some (a || b)
    | _, _ => none

/-- The truth value of a condition in a row: `AND` binds tighter than `OR`. -/
def conditionValue (row : NoteRecord) (cond : List Token) : Option Bool :=
  anyTrue row (splitKeyword "OR" cond)

/-- Whether the `WHERE` clause of the query `q` lets the row through, so that the query
can select it. -/
def sqlSelects (q : String) (row : NoteRecord) : Option Bool :=
  match sqlTokens q with
  | none => none
  | some ts =>
    match whereTokens ts with
    | none => none
    | some cond => conditionValue row cond

/-- A note that is archived and trashed. -/
def hiddenNote : NoteRecord :=
  { ZUNIQUEIDENTIFIER := "9", ZTITLE := "secret", ZTEXT := "hidden", ZARCHIVED := 1,
    ZTRASHED := 1 }

/-- A note that is neither archived nor trashed. -/
def plainNote : NoteRecord :=
  { ZUNIQUEIDENTIFIER := "1", ZTITLE := "Alpha Beta Gamma", ZTEXT := "body", ZARCHIVED := 0,
    ZTRASHED := 0 }

/-- The tokens of a note template before its pattern, the template filtering on `column`. -/
def notesHeadTokens (column : String) : List Token :=
  [.word "SELECT".data, .word "DISTINCT".data, .word "ZUNIQUEIDENTIFIER".data, .sym ',',
    .word "ZTITLE".data, .word "FROM".data, .word "ZSFNOTE".data, .word "WHERE".data,
    .word "ZARCHIVED".data, .sym '=', .word "0".data, .word "AND".data,
    .word "ZTRASHED".data, .sym '=', .word "0".data, .word "AND".data, .word "lower".data,
    .sym '(', .word column.data, .sym ')', .word "LIKE".data, .word "lower".data, .sym '(']

/-- The tokens of a note query after its pattern, up to the keyword `LIMIT`. -/
def notesTailTokens : List Token :=
  [.sym ')', .word "ORDER".data, .word "BY".data, .word "ZMODIFICATIONDATE".data,
    .word "DESC".data, .word "LIMIT".data]

/-- A search text that closes the string literal of the pattern and adds a condition. -/
def injectedText : String :=
  "') OR lower(ZTITLE) LIKE lower('"

/-- The first query that `SearchNotesByTitle(injectedText)` hands to the store. -/
def injectedQuery : String :=
  "\n\tSELECT DISTINCT\n\t\tZUNIQUEIDENTIFIER, ZTITLE \n\tFROM \n\t\tZSFNOTE \n\tWHERE \n\t\tZARCHIVED=0 \n\t\tAND ZTRASHED=0 \n\t\tAND lower(ZTITLE) LIKE lower('%') OR lower(ZTITLE) LIKE lower('%')\n\tORDER BY \n\t\tZMODIFICATIONDATE DESC \n LIMIT 25"

/-- The `WHERE` clause of the query has a reading and lets through only rows that are
neither archived nor trashed. -/
def FiltersHidden (q : String) : Prop :=
  ∀ row : NoteRecord,
    (∃ b, sqlSelects q row = some b) ∧
      (sqlSelects q row = some true → row.ZARCHIVED = 0 ∧ row.ZTRASHED = 0)

/-! ## Theorems -/

/-! ### NoteList -/

theorem NoteMap.has_iff (m : NoteMap) (n : Note) : m.has n = true ↔ n ∈ m.map Prod.fst := by
  simp [NoteMap.has, List.any_eq_true]

theorem NoteMap.keys_assign (m : NoteMap) (n : Note) (b : Bool) :
    (m.assign n b).map Prod.fst = if m.has n then m.map Prod.fst else m.map Prod.fst ++ [n] := by
  unfold NoteMap.assign
  split
  · rw [List.map_map]
    apply List.map_congr_left
    intro p _
    simp only [Function.comp]
    split <;> simp_all
  · simp

theorem NoteMap.has_assign (m : NoteMap) (n k : Note) (b : Bool) :
    (m.assign n b).has k = (m.has k || decide (k = n)) := by
  rw [Bool.eq_iff_iff, NoteMap.has_iff, NoteMap.keys_assign]
  by_cases h : m.has n = true
  · simp only [h, if_true, Bool.or_eq_true, decide_eq_true_eq, NoteMap.has_iff]
    constructor
    · exact Or.inl
    · rintro (h1 | rfl)
      · exact h1
      · exact (NoteMap.has_iff _ _).1 h
  · simp [h, NoteMap.has_iff]

theorem NoteList.consistent_new : NewNoteList.Consistent := by
  intro n; simp [NewNoteList, NoteList.Contains, NoteMap.has]

theorem NoteList.appendOne_slice (L : NoteList) (hL : L.Consistent) (n : Note) :
    (L.appendOne n).slice = if n ∈ L.slice then L.slice else L.slice ++ [n] := by
  unfold NoteList.appendOne
  by_cases h : n ∈ L.slice
  · have := (hL n).2 h
    simp [this, h]
  · have : L.Contains n = false := by
      cases hc : L.Contains n
      · rfl
      · exact absurd ((hL n).1 hc) h
    simp [this, h]

theorem NoteList.appendOne_consistent (L : NoteList) (hL : L.Consistent) (n : Note) :
    (L.appendOne n).Consistent := by
  unfold NoteList.appendOne
  cases hc : L.Contains n
  · intro k
    simp only [Bool.not_false, if_true, NoteList.Contains, NoteMap.has_assign, Bool.or_eq_true,
      decide_eq_true_eq, List.mem_append, List.mem_singleton]
    have := hL k
    simp only [NoteList.Contains] at this
    rw [this]
  · simpa using hL

theorem NoteList.AppendNew_consistent (L : NoteList) (hL : L.Consistent) (xs : List Note) :
    (L.AppendNew xs).Consistent := by
  unfold NoteList.AppendNew
  induction xs generalizing L with
  | nil => simpa using hL
  | cons x xs ih => exact ih _ (NoteList.appendOne_consistent L hL x)

theorem filter_notMem_append_singleton (l s : List Note) (x : Note) :
    l.filter (fun y => decide (y ∉ s ++ [x])) =
      (l.filter (fun y => decide (y ≠ x))).filter (fun y => decide (y ∉ s)) := by
  rw [List.filter_filter]
  apply List.filter_congr
  intro y _
  simp [not_or, Bool.and_comm]

theorem filter_ne_of_mem (l s : List Note) (x : Note) (hx : x ∈ s) :
    (l.filter (fun y => decide (y ≠ x))).filter (fun y => decide (y ∉ s)) =
      l.filter (fun y => decide (y ∉ s)) := by
  rw [List.filter_filter]
  apply List.filter_congr
  intro y _
  by_cases hy : y ∈ s
  · simp [hy]
  · have : y ≠ x := fun h => hy (h ▸ hx)
    simp [hy, this]

/-- The slice after `AppendNew`: the old slice, then the new distinct notes in order. -/
theorem NoteList.AppendNew_slice (L : NoteList) (hL : L.Consistent) (xs : List Note) :
    (L.AppendNew xs).slice =
      L.slice ++ (firstOccurrences xs).filter (fun y => decide (y ∉ L.slice)) := by
  unfold NoteList.AppendNew
  induction xs generalizing L with
  | nil => simp [firstOccurrences]
  | cons x xs ih =>
    rw [List.foldl_cons, ih _ (NoteList.appendOne_consistent L hL x),
      NoteList.appendOne_slice L hL x]
    by_cases hx : x ∈ L.slice
    · simp only [hx, if_true, firstOccurrences]
      rw [List.filter_cons_of_neg (by simpa using hx), filter_ne_of_mem _ _ _ hx]
    · simp only [hx, if_false, firstOccurrences]
      rw [List.filter_cons_of_pos (by simpa using hx), filter_notMem_append_singleton]
      simp

theorem mem_firstOccurrences (xs : List Note) (n : Note) :
    n ∈ firstOccurrences xs ↔ n ∈ xs := by
  induction xs with
  | nil => simp [firstOccurrences]
  | cons x xs ih =>
    simp only [firstOccurrences, List.mem_cons, List.mem_filter, ih, decide_eq_true_eq]
    by_cases h : n = x <;> simp [h]

theorem nodup_firstOccurrences (xs : List Note) : (firstOccurrences xs).Nodup := by
  induction xs with
  | nil => simp [firstOccurrences]
  | cons x xs ih =>
    simp only [firstOccurrences, List.nodup_cons, List.mem_filter, decide_eq_true_eq]
    exact ⟨fun h => h.2 rfl, ih.filter _⟩

theorem indexOf_filter_lt (p : Note → Bool) (l : List Note) (a b : Note)
    (ha : p a = true) (hb : p b = true) (hal : a ∈ l) :
    ((l.filter p).indexOf a < (l.filter p).indexOf b ↔ l.indexOf a < l.indexOf b) := by
  induction l with
  | nil => simp at hal
  | cons x l ih =>
    by_cases hxa : x = a
    · subst hxa
      rw [List.filter_cons_of_pos ha]
      by_cases hxb : x = b
      · subst hxb; simp
      · simp [List.indexOf_cons_ne _ hxb]
    · have hal' : a ∈ l := by
        rcases List.mem_cons.1 hal with h | h
        · exact absurd h.symm hxa
        · exact h
      by_cases hxb : x = b
      · subst hxb
        rw [List.filter_cons_of_pos hb]
        simp [List.indexOf_cons_ne _ hxa]
      · rw [List.indexOf_cons_ne _ hxa, List.indexOf_cons_ne _ hxb]
        cases hp : p x
        · rw [List.filter_cons_of_neg (by simp [hp])]
          simpa using ih hal'
        · rw [List.filter_cons_of_pos hp, List.indexOf_cons_ne _ hxa, List.indexOf_cons_ne _ hxb]
          simpa using ih hal'

theorem indexOf_firstOccurrences_lt (xs : List Note) (a b : Note) (ha : a ∈ xs) :
    ((firstOccurrences xs).indexOf a < (firstOccurrences xs).indexOf b ↔
      xs.indexOf a < xs.indexOf b) := by
  induction xs with
  | nil => simp at ha
  | cons x xs ih =>
    simp only [firstOccurrences]
    by_cases hxa : x = a
    · subst hxa
      by_cases hxb : x = b
      · subst hxb; simp
      · simp [List.indexOf_cons_ne _ hxb]
    · have ha' : a ∈ xs := by
        rcases List.mem_cons.1 ha with h | h
        · exact absurd h.symm hxa
        · exact h
      by_cases hxb : x = b
      · subst hxb
        simp [List.indexOf_cons_ne _ hxa]
      · rw [List.indexOf_cons_ne _ hxa, List.indexOf_cons_ne _ hxb, List.indexOf_cons_ne _ hxa,
          List.indexOf_cons_ne _ hxb]
        have h1 := indexOf_filter_lt (fun y => decide (y ≠ x)) (firstOccurrences xs) a b
          (by simpa using Ne.symm hxa) (by simpa using Ne.symm hxb)
          ((mem_firstOccurrences xs a).2 ha')
        simp only [Nat.succ_lt_succ_iff, Nat.add_lt_add_iff_right]
        rw [h1]
        exact ih ha'

theorem NoteList.AppendNew_append (L : NoteList) (xs ys : List Note) :
    L.AppendNew (xs ++ ys) = (L.AppendNew xs).AppendNew ys := by
  simp [NoteList.AppendNew, List.foldl_append]

theorem runCalls_eq_AppendNew (L : NoteList) (calls : List NoteListCall) :
    runCalls L calls = L.AppendNew (calls.map NoteListCall.notes).flatten := by
  unfold runCalls
  induction calls generalizing L with
  | nil => simp [NoteList.AppendNew]
  | cons c cs ih =>
    rw [List.foldl_cons, ih, List.map_cons, List.flatten_cons, NoteList.AppendNew_append]
    cases c <;> rfl

theorem NoteList.AppendNew_new_slice (xs : List Note) :
    (NewNoteList.AppendNew xs).slice = firstOccurrences xs := by
  rw [NoteList.AppendNew_slice _ NoteList.consistent_new]
  simp [NewNoteList]

/-- C1 (dedup invariant): whatever sequence of `AppendNew` and `AppendNewFrom` calls is
made on a fresh `NewNoteList()`, with `xs` the notes offered by the calls in order,
`GetSlice()` is the list of the distinct values of `xs` at their first occurrences: it has
no two equal elements, it has exactly the elements of `xs`, and `a` comes before `b` in it
if and only if the first occurrence of `a` in `xs` comes before that of `b`. -/
theorem dedup_invariant (calls : List NoteListCall) :
    (runCalls NewNoteList calls).GetSlice
        = firstOccurrences (calls.map NoteListCall.notes).flatten ∧
      (runCalls NewNoteList calls).GetSlice.Nodup ∧
      (∀ n, n ∈ (runCalls NewNoteList calls).GetSlice
        ↔ n ∈ (calls.map NoteListCall.notes).flatten) ∧
      ∀ a b, a ∈ (calls.map NoteListCall.notes).flatten →
        b ∈ (calls.map NoteListCall.notes).flatten →
        ((runCalls NewNoteList calls).GetSlice.indexOf a
            < (runCalls NewNoteList calls).GetSlice.indexOf b
          ↔ (calls.map NoteListCall.notes).flatten.indexOf a
            < (calls.map NoteListCall.notes).flatten.indexOf b) := by
  have h : (runCalls NewNoteList calls).GetSlice
      = firstOccurrences (calls.map NoteListCall.notes).flatten := by
    rw [runCalls_eq_AppendNew]
    exact NoteList.AppendNew_new_slice _
  rw [h]
  exact ⟨rfl, nodup_firstOccurrences _, mem_firstOccurrences _,
    fun a b ha _ => indexOf_firstOccurrences_lt _ a b ha⟩

theorem dedup_invariant_witness :
    (runCalls NewNoteList
        [.appendNew [⟨"1", "x"⟩, ⟨"2", "y"⟩, ⟨"1", "x"⟩],
          .appendNewFrom ⟨[], [⟨"2", "y"⟩, ⟨"1", "x"⟩]⟩]).GetSlice.indexOf ⟨"1", "x"⟩
      < (runCalls NewNoteList
        [.appendNew [⟨"1", "x"⟩, ⟨"2", "y"⟩, ⟨"1", "x"⟩],
          .appendNewFrom ⟨[], [⟨"2", "y"⟩, ⟨"1", "x"⟩]⟩]).GetSlice.indexOf ⟨"2", "y"⟩ :=
  ((dedup_invariant
    [.appendNew [⟨"1", "x"⟩, ⟨"2", "y"⟩, ⟨"1", "x"⟩],
      .appendNewFrom ⟨[], [⟨"2", "y"⟩, ⟨"1", "x"⟩]⟩]).2.2.2 ⟨"1", "x"⟩ ⟨"2", "y"⟩
    (by decide) (by decide)).2 (by decide)

/-- C2 (merge equals element-wise append): for all NoteLists `A` and `B`, with or without
duplicates in the slice of `B`, `A.AppendNewFrom(B)` leaves `A` in the very state (set and
slice) reached by calling `A.AppendNew(b)` for each `b` of `B.GetSlice()` in order; for a
well-formed `A` both leave the slice of `A` followed by the distinct notes of `B` that
`A` did not hold, at their first occurrences. -/
theorem appendNewFrom_eq_elementwise (A B : NoteList) :
    A.AppendNewFrom B = B.GetSlice.foldl (fun acc b => acc.AppendNew [b]) A ∧
      (A.Consistent →
        (B.GetSlice.foldl (fun acc b => acc.AppendNew [b]) A).GetSlice
          = A.GetSlice
            ++ (firstOccurrences B.GetSlice).filter (fun y => decide (y ∉ A.GetSlice))) := by
  have h : A.AppendNewFrom B = B.GetSlice.foldl (fun acc b => acc.AppendNew [b]) A := by
    simp [NoteList.AppendNewFrom, NoteList.AppendNew, NoteList.GetSlice]
  refine ⟨h, fun hA => ?_⟩
  rw [← h]
  exact NoteList.AppendNew_slice A hA B.slice

theorem appendNewFrom_eq_elementwise_witness :
    ((⟨[], [⟨"2", "y"⟩, ⟨"1", "x"⟩, ⟨"2", "y"⟩]⟩ : NoteList).GetSlice.foldl
        (fun acc b => acc.AppendNew [b]) (NewNoteList.AppendNew [⟨"1", "x"⟩])).GetSlice
      = [⟨"1", "x"⟩, ⟨"2", "y"⟩] := by
  have h := (appendNewFrom_eq_elementwise (NewNoteList.AppendNew [⟨"1", "x"⟩])
    ⟨[], [⟨"2", "y"⟩, ⟨"1", "x"⟩, ⟨"2", "y"⟩]⟩).2
    (NoteList.AppendNew_consistent _ NoteList.consistent_new _)
  rw [h]
  decide

/-! ### Library functions -/

theorem splitChars_single_length (c : Char) (s : List Char) :
    (splitChars [c] 0 s).length = s.count c + 1 := by
  induction s with
  | nil => simp [splitChars]
  | cons d s ih =>
    unfold splitChars
    by_cases h : c = d
    · subst h
      simp [List.isPrefixOf, ih]
    · have hne : (c == d) = false := by simpa using h
      have hdc : (d == c) = false := by simpa using fun e => h e.symm
      simp only [List.isPrefixOf, hne, Bool.false_and, Bool.false_eq_true, if_false]
      rw [List.count_cons]
      cases hs : splitChars [c] 0 s with
      | nil => rw [hs] at ih; simp at ih
      | cons w ws =>
        rw [hs] at ih
        simp only [hdc, Bool.false_eq_true, if_false, Nat.add_zero]
        simpa using ih

theorem Split_space_length (F : String) :
    (Split F " ").length = F.data.count ' ' + 1 := by
  have : (" " : String).data = [' '] := rfl
  simp [Split, this, splitChars_single_length]

theorem Split_space_multi_iff (F : String) :
    (Split F " ").length > 1 ↔ ' ' ∈ F.data := by
  rw [Split_space_length]
  constructor
  · intro h
    exact List.count_pos_iff.1 (by omega)
  · intro h
    have := List.count_pos_iff.2 h
    omega

/-! ### Row conversion and `QueryNotes` -/

theorem toNoteSlice_eq_map (maps : List Row) :
    toNoteSlice maps
      = maps.map (fun m => ({ ID := m.at "ZUNIQUEIDENTIFIER", Title := m.at "ZTITLE" } : Note)) := by
  unfold toNoteSlice
  have h : ∀ (acc : List Note),
      maps.foldl (fun notes m =>
        notes ++ [({ ID := m.at "ZUNIQUEIDENTIFIER", Title := m.at "ZTITLE" } : Note)]) acc
      = acc ++ maps.map
          (fun m => ({ ID := m.at "ZUNIQUEIDENTIFIER", Title := m.at "ZTITLE" } : Note)) := by
    induction maps with
    | nil => intro acc; simp
    | cons m ms ih => intro acc; simp [ih]
  simpa using h []

theorem firstOccurrences_of_nodup (l : List Note) (h : l.Nodup) : firstOccurrences l = l := by
  induction l with
  | nil => rfl
  | cons x l ih =>
    rw [List.nodup_cons] at h
    simp only [firstOccurrences, ih h.2]
    congr 1
    rw [List.filter_eq_self]
    intro y hy
    have : y ≠ x := fun e => h.1 (e ▸ hy)
    simpa using this

theorem firstOccurrences_append (xs ys : List Note) :
    firstOccurrences (xs ++ ys)
      = firstOccurrences xs
        ++ (firstOccurrences ys).filter (fun y => decide (y ∉ firstOccurrences xs)) := by
  have h1 := NoteList.AppendNew_new_slice (xs ++ ys)
  rw [NoteList.AppendNew_append,
    NoteList.AppendNew_slice _ (NoteList.AppendNew_consistent _ NoteList.consistent_new xs),
    NoteList.AppendNew_new_slice] at h1
  exact h1.symm

section Orchestrator

variable {σ ε : Type}

theorem BearDB.QueryNotes_ok (Sprintf : Formatter) (db : BearDB σ ε) (query : String)
    (w : World σ) (maps : List Row) (s : σ)
    (h : db.lite.QueryStringMaps (db.limitQuery Sprintf query) w.store = ((maps, none), s)) :
    db.QueryNotes Sprintf query w
      = ((NewNoteList.AppendNew (toNoteSlice maps), none),
          { store := s, log := w.log ++ [db.limitQuery Sprintf query] }) := by
  simp [BearDB.QueryNotes, BearDB.liteQueryStringMaps, h]

theorem BearDB.QueryNotes_err (Sprintf : Formatter) (db : BearDB σ ε) (query : String)
    (w : World σ) (maps : List Row) (e : ε) (s : σ)
    (h : db.lite.QueryStringMaps (db.limitQuery Sprintf query) w.store = ((maps, some e), s)) :
    db.QueryNotes Sprintf query w
      = ((NewNoteList, some (GoError.lower e)),
          { store := s, log := w.log ++ [db.limitQuery Sprintf query] }) := by
  simp [BearDB.QueryNotes, BearDB.liteQueryStringMaps, h]

theorem BearDB.QueryNotes_log (Sprintf : Formatter) (db : BearDB σ ε) (query : String)
    (w : World σ) :
    (db.QueryNotes Sprintf query w).2.log = w.log ++ [db.limitQuery Sprintf query] := by
  unfold BearDB.QueryNotes
  simp only []
  split <;> rfl

/-- The list `QueryNotes` returns is a fresh list filled by one `AppendNew`. -/
theorem BearDB.QueryNotes_list (Sprintf : Formatter) (db : BearDB σ ε) (query : String)
    (w : World σ) :
    ∃ xs, (db.QueryNotes Sprintf query w).1.1 = NewNoteList.AppendNew xs := by
  unfold BearDB.QueryNotes
  simp only []
  split
  · exact ⟨[], rfl⟩
  · exact ⟨_, rfl⟩

theorem BearDB.QueryNotes_consistent (Sprintf : Formatter) (db : BearDB σ ε) (query : String)
    (w : World σ) : (db.QueryNotes Sprintf query w).1.1.Consistent := by
  obtain ⟨xs, h⟩ := BearDB.QueryNotes_list Sprintf db query w
  rw [h]
  exact NoteList.AppendNew_consistent _ NoteList.consistent_new xs

theorem BearDB.QueryNotes_nodup (Sprintf : Formatter) (db : BearDB σ ε) (query : String)
    (w : World σ) : (db.QueryNotes Sprintf query w).1.1.slice.Nodup := by
  obtain ⟨xs, h⟩ := BearDB.QueryNotes_list Sprintf db query w
  rw [h, NoteList.AppendNew_new_slice]
  exact nodup_firstOccurrences xs

/-- Merging a duplicate-free list into a consistent one: the old slice, then the notes of
the other list that are not in it. -/
theorem NoteList.AppendNewFrom_slice (A B : NoteList) (hA : A.Consistent) (hB : B.slice.Nodup) :
    (A.AppendNewFrom B).slice = A.slice ++ B.slice.filter (fun y => decide (y ∉ A.slice)) := by
  rw [NoteList.AppendNewFrom, NoteList.AppendNew_slice A hA, firstOccurrences_of_nodup _ hB]

end Orchestrator

theorem firstOccurrences_sublist (xs : List Note) : (firstOccurrences xs).Sublist xs := by
  induction xs with
  | nil => exact List.Sublist.slnil
  | cons x xs ih =>
    exact List.Sublist.cons₂ x ((List.filter_sublist _).trans ih)

theorem indexOf_lt_of_prefix (l₁ l : List Note) (h : l₁ <+: l) (a b : Note)
    (ha : a ∈ l₁) (hb : b ∉ l₁) : l.indexOf a < l.indexOf b := by
  obtain ⟨t, rfl⟩ := h
  rw [List.indexOf_append_of_mem ha, List.indexOf_append_of_not_mem hb]
  have := List.indexOf_lt_length.2 ha
  omega

section Orchestrator

variable {σ ε : Type}

/-! ### Gap search -/

theorem BearDB.gapQuery_first_err (Sprintf : Formatter) (db : BearDB σ ε) (T F : String)
    (w : World σ) (h : (db.QueryNotes Sprintf (Sprintf T [.str F]) w).1.2.isSome = true) :
    db.gapQuery Sprintf T F w = db.QueryNotes Sprintf (Sprintf T [.str F]) w := by
  simp [BearDB.gapQuery, h]

theorem BearDB.gapQuery_single (Sprintf : Formatter) (db : BearDB σ ε) (T F : String)
    (w : World σ) (hF : ¬ (Split F " ").length > 1) :
    db.gapQuery Sprintf T F w = db.QueryNotes Sprintf (Sprintf T [.str F]) w := by
  unfold BearDB.gapQuery
  simp only [hF, if_false]
  split <;> rfl

theorem BearDB.gapQuery_multi (Sprintf : Formatter) (db : BearDB σ ε) (T F : String)
    (w : World σ) (hF : (Split F " ").length > 1)
    (h1 : (db.QueryNotes Sprintf (Sprintf T [.str F]) w).1.2 = none) :
    db.gapQuery Sprintf T F w =
      if (db.QueryNotes Sprintf (Sprintf T [.str (Join (Split F " ") "% %")])
            (db.QueryNotes Sprintf (Sprintf T [.str F]) w).2).1.2.isSome
      then (((db.QueryNotes Sprintf (Sprintf T [.str F]) w).1.1,
              (db.QueryNotes Sprintf (Sprintf T [.str (Join (Split F " ") "% %")])
                (db.QueryNotes Sprintf (Sprintf T [.str F]) w).2).1.2),
            (db.QueryNotes Sprintf (Sprintf T [.str (Join (Split F " ") "% %")])
                (db.QueryNotes Sprintf (Sprintf T [.str F]) w).2).2)
      else ((((db.QueryNotes Sprintf (Sprintf T [.str F]) w).1.1).AppendNewFrom
              (db.QueryNotes Sprintf (Sprintf T [.str (Join (Split F " ") "% %")])
                (db.QueryNotes Sprintf (Sprintf T [.str F]) w).2).1.1, none),
            (db.QueryNotes Sprintf (Sprintf T [.str (Join (Split F " ") "% %")])
                (db.QueryNotes Sprintf (Sprintf T [.str F]) w).2).2) := by
  unfold BearDB.gapQuery
  simp only [h1, hF, if_true, Option.isSome_none, Bool.false_eq_true, if_false]

end Orchestrator

section Orchestrator
variable {σ ε : Type}

/-- C3 (gap search, multi-word case): when the fill splits on the space into more than one
word and the store answers both queries with success (rows `maps1` for the template filled
with the fill itself, rows `maps2` for the template filled with the words joined by
`% %`), `gapQuery` returns a nil error and the notes of the first query followed by those
notes of the second that are not among the first; each of the two sub-results is the
first-occurrence list of its rows, in the row order of the store. -/
theorem gapQuery_multi_word (Sprintf : Formatter) (db : BearDB σ ε) (T F : String)
    (w : World σ) (maps1 maps2 : List Row) (s1 s2 : σ)
    (hF : (Split F " ").length > 1)
    (h1 : db.lite.QueryStringMaps (db.limitQuery Sprintf (Sprintf T [.str F])) w.store
      = ((maps1, none), s1))
    (h2 : db.lite.QueryStringMaps
        (db.limitQuery Sprintf (Sprintf T [.str (Join (Split F " ") "% %")])) s1
      = ((maps2, none), s2)) :
    (db.gapQuery Sprintf T F w).1.2 = none ∧
      (db.gapQuery Sprintf T F w).1.1.GetSlice
        = firstOccurrences (toNoteSlice maps1)
          ++ (firstOccurrences (toNoteSlice maps2)).filter
              (fun y => decide (y ∉ firstOccurrences (toNoteSlice maps1))) ∧
      (db.QueryNotes Sprintf (Sprintf T [.str F]) w).1.1.GetSlice
        = firstOccurrences (toNoteSlice maps1) ∧
      (db.QueryNotes Sprintf (Sprintf T [.str (Join (Split F " ") "% %")])
          (db.QueryNotes Sprintf (Sprintf T [.str F]) w).2).1.1.GetSlice
        = firstOccurrences (toNoteSlice maps2) ∧
      (firstOccurrences (toNoteSlice maps1)).Sublist (toNoteSlice maps1) ∧
      (firstOccurrences (toNoteSlice maps2)).Sublist (toNoteSlice maps2) := by
  have q1 := BearDB.QueryNotes_ok Sprintf db (Sprintf T [.str F]) w maps1 s1 h1
  have q2 := BearDB.QueryNotes_ok Sprintf db (Sprintf T [.str (Join (Split F " ") "% %")])
    { store := s1, log := w.log ++ [db.limitQuery Sprintf (Sprintf T [.str F])] } maps2 s2 h2
  have hg := BearDB.gapQuery_multi Sprintf db T F w hF (by rw [q1])
  rw [q1] at hg
  simp only [] at hg
  rw [q2] at hg
  simp only [Option.isSome_none, Bool.false_eq_true, if_false] at hg
  rw [hg, q1]
  simp only []
  rw [q2]
  refine ⟨trivial, ?_, ?_, ?_, firstOccurrences_sublist _, firstOccurrences_sublist _⟩
  · simp only [NoteList.GetSlice]
    rw [NoteList.AppendNewFrom_slice _ _
        (NoteList.AppendNew_consistent _ NoteList.consistent_new _)
        (by rw [NoteList.AppendNew_new_slice]; exact nodup_firstOccurrences _),
      NoteList.AppendNew_new_slice, NoteList.AppendNew_new_slice]
  · exact NoteList.AppendNew_new_slice _
  · exact NoteList.AppendNew_new_slice _

/-- C4 (gap search, single-word case): for a fill without a space character `gapQuery`
is `QueryNotes` on the filled template, list, error and world alike, and hands the store
exactly that one query; for a fill with a space character whose first query succeeds it
hands the store exactly two queries, the exact one and then the word-gap one. -/
theorem gapQuery_single_word (Sprintf : Formatter) (db : BearDB σ ε) (T F : String)
    (w : World σ) :
    (' ' ∉ F.data →
      db.gapQuery Sprintf T F w = db.QueryNotes Sprintf (Sprintf T [.str F]) w ∧
      (db.gapQuery Sprintf T F w).2.log
        = w.log ++ [db.limitQuery Sprintf (Sprintf T [.str F])]) ∧
    (' ' ∈ F.data → (db.QueryNotes Sprintf (Sprintf T [.str F]) w).1.2 = none →
      (db.gapQuery Sprintf T F w).2.log
        = w.log ++ [db.limitQuery Sprintf (Sprintf T [.str F]),
            db.limitQuery Sprintf (Sprintf T [.str (Join (Split F " ") "% %")])]) := by
  constructor
  · intro hF
    have hs : ¬ (Split F " ").length > 1 := fun h => hF ((Split_space_multi_iff F).1 h)
    have hg := BearDB.gapQuery_single Sprintf db T F w hs
    rw [hg]
    exact ⟨rfl, BearDB.QueryNotes_log Sprintf db _ w⟩
  · intro hF h1
    have hs : (Split F " ").length > 1 := (Split_space_multi_iff F).2 hF
    rw [BearDB.gapQuery_multi Sprintf db T F w hs h1]
    split
    · simp only []
      rw [BearDB.QueryNotes_log, BearDB.QueryNotes_log]
      simp
    · simp only []
      rw [BearDB.QueryNotes_log, BearDB.QueryNotes_log]
      simp

/-- The notes of the exact query are a prefix of the notes of the gap search. -/
theorem BearDB.gapQuery_prefix (Sprintf : Formatter) (db : BearDB σ ε) (T F : String)
    (w : World σ) :
    (db.QueryNotes Sprintf (Sprintf T [.str F]) w).1.1.slice
      <+: (db.gapQuery Sprintf T F w).1.1.slice := by
  by_cases h1 : (db.QueryNotes Sprintf (Sprintf T [.str F]) w).1.2.isSome = true
  · rw [BearDB.gapQuery_first_err Sprintf db T F w h1]
  · by_cases hF : (Split F " ").length > 1
    · rw [BearDB.gapQuery_multi Sprintf db T F w hF (by simpa using h1)]
      split
      · exact List.prefix_refl _
      · simp only []
        rw [NoteList.AppendNewFrom_slice _ _ (BearDB.QueryNotes_consistent _ _ _ _)
          (BearDB.QueryNotes_nodup _ _ _ _)]
        exact List.prefix_append _ _
    · rw [BearDB.gapQuery_single Sprintf db T F w hF]

/-- C5 (gap search superset and priority): for every template, fill and store, whatever the
second query does, the list of `QueryNotes` on the filled template is a prefix of the list
of `gapQuery`; so every exact-phrase match is in the gap-search result, ahead of every note
that only the word-gap query contributed. -/
theorem gapQuery_superset (Sprintf : Formatter) (db : BearDB σ ε) (T F : String)
    (w : World σ) :
    (db.QueryNotes Sprintf (Sprintf T [.str F]) w).1.1.GetSlice
        <+: (db.gapQuery Sprintf T F w).1.1.GetSlice ∧
      (∀ a, a ∈ (db.QueryNotes Sprintf (Sprintf T [.str F]) w).1.1.GetSlice →
        a ∈ (db.gapQuery Sprintf T F w).1.1.GetSlice) ∧
      ∀ a b, a ∈ (db.QueryNotes Sprintf (Sprintf T [.str F]) w).1.1.GetSlice →
        b ∉ (db.QueryNotes Sprintf (Sprintf T [.str F]) w).1.1.GetSlice →
        (db.gapQuery Sprintf T F w).1.1.GetSlice.indexOf a
          < (db.gapQuery Sprintf T F w).1.1.GetSlice.indexOf b := by
  have hp := BearDB.gapQuery_prefix Sprintf db T F w
  exact ⟨hp, fun a ha => hp.subset ha,
    fun a b ha hb => indexOf_lt_of_prefix _ _ hp a b ha hb⟩

end Orchestrator

theorem gapQuery_multi_word_witness :
    (scriptedDB
        [([noteRow "1" "a b", noteRow "1" "a b"], none),
          ([noteRow "2" "a x b", noteRow "1" "a b"], none)] []
      |>.gapQuery modelSprintf notesByTitleQuery "a b" world0).1.1.GetSlice
      = [⟨"1", "a b"⟩, ⟨"2", "a x b"⟩] := by
  have h := (gapQuery_multi_word modelSprintf
    (scriptedDB
        [([noteRow "1" "a b", noteRow "1" "a b"], none),
          ([noteRow "2" "a x b", noteRow "1" "a b"], none)] [])
    notesByTitleQuery "a b" world0
    [noteRow "1" "a b", noteRow "1" "a b"] [noteRow "2" "a x b", noteRow "1" "a b"] 1 2
    (by decide) rfl rfl).2.1
  rw [h]
  decide

theorem gapQuery_single_word_witness :
    (scriptedDB [([noteRow "1" "ab"], none)] []
      |>.gapQuery modelSprintf notesByTitleQuery "ab" world0).2.log.length = 1 ∧
    (scriptedDB [([noteRow "1" "a b"], none), ([], some "locked")] []
      |>.gapQuery modelSprintf notesByTitleQuery "a b" world0).2.log.length = 2 := by
  have h1 := ((gapQuery_single_word modelSprintf (scriptedDB [([noteRow "1" "ab"], none)] [])
    notesByTitleQuery "ab" world0).1 (by decide)).2
  have h2 := (gapQuery_single_word modelSprintf
    (scriptedDB [([noteRow "1" "a b"], none), ([], some "locked")] [])
    notesByTitleQuery "a b" world0).2 (by decide) rfl
  rw [h1, h2]
  exact ⟨rfl, rfl⟩

theorem gapQuery_superset_witness :
    (scriptedDB
        [([noteRow "1" "a b"], none), ([noteRow "2" "a x b", noteRow "1" "a b"], none)] []
      |>.gapQuery modelSprintf notesByTitleQuery "a b" world0).1.1.GetSlice.indexOf ⟨"1", "a b"⟩
    < (scriptedDB
        [([noteRow "1" "a b"], none), ([noteRow "2" "a x b", noteRow "1" "a b"], none)] []
      |>.gapQuery modelSprintf notesByTitleQuery "a b" world0).1.1.GetSlice.indexOf
        ⟨"2", "a x b"⟩ :=
  (gapQuery_superset modelSprintf
    (scriptedDB
        [([noteRow "1" "a b"], none), ([noteRow "2" "a x b", noteRow "1" "a b"], none)] [])
    notesByTitleQuery "a b" world0).2.2 ⟨"1", "a b"⟩ ⟨"2", "a x b"⟩ (by decide) (by decide)

section Orchestrator
variable {σ ε : Type}

/-! ### Combined search -/

theorem BearDB.QueryNotes_err_list (Sprintf : Formatter) (db : BearDB σ ε) (query : String)
    (w : World σ) (h : (db.QueryNotes Sprintf query w).1.2.isSome = true) :
    (db.QueryNotes Sprintf query w).1.1 = NewNoteList := by
  unfold BearDB.QueryNotes at h ⊢
  simp only [] at h ⊢
  split
  · rfl
  · rename_i hn
    rw [if_neg hn] at h
    exact absurd h hn

/-- The list `gapQuery` returns is a fresh list filled by `AppendNew`. -/
theorem BearDB.gapQuery_list (Sprintf : Formatter) (db : BearDB σ ε) (T F : String)
    (w : World σ) : ∃ xs, (db.gapQuery Sprintf T F w).1.1 = NewNoteList.AppendNew xs := by
  by_cases h1 : (db.QueryNotes Sprintf (Sprintf T [.str F]) w).1.2.isSome = true
  · rw [BearDB.gapQuery_first_err Sprintf db T F w h1]
    exact BearDB.QueryNotes_list Sprintf db _ w
  · by_cases hF : (Split F " ").length > 1
    · rw [BearDB.gapQuery_multi Sprintf db T F w hF (by simpa using h1)]
      split
      · exact BearDB.QueryNotes_list Sprintf db _ w
      · obtain ⟨xs, hx⟩ := BearDB.QueryNotes_list Sprintf db (Sprintf T [.str F]) w
        refine ⟨xs ++ (db.QueryNotes Sprintf (Sprintf T [.str (Join (Split F " ") "% %")])
            (db.QueryNotes Sprintf (Sprintf T [.str F]) w).2).1.1.slice, ?_⟩
        simp only []
        rw [NoteList.AppendNewFrom, hx, NoteList.AppendNew_append]
    · rw [BearDB.gapQuery_single Sprintf db T F w hF]
      exact BearDB.QueryNotes_list Sprintf db _ w

theorem BearDB.gapQuery_consistent (Sprintf : Formatter) (db : BearDB σ ε) (T F : String)
    (w : World σ) : (db.gapQuery Sprintf T F w).1.1.Consistent := by
  obtain ⟨xs, h⟩ := BearDB.gapQuery_list Sprintf db T F w
  rw [h]
  exact NoteList.AppendNew_consistent _ NoteList.consistent_new xs

theorem BearDB.gapQuery_nodup (Sprintf : Formatter) (db : BearDB σ ε) (T F : String)
    (w : World σ) : (db.gapQuery Sprintf T F w).1.1.slice.Nodup := by
  obtain ⟨xs, h⟩ := BearDB.gapQuery_list Sprintf db T F w
  rw [h, NoteList.AppendNew_new_slice]
  exact nodup_firstOccurrences xs

theorem BearDB.SearchNotes_ok (Sprintf : Formatter) (db : BearDB σ ε) (text : String)
    (w : World σ)
    (h1 : (db.SearchNotesByTitle Sprintf text w).1.2 = none)
    (h2 : (db.SearchNotesByText Sprintf text (db.SearchNotesByTitle Sprintf text w).2).1.2
      = none) :
    db.SearchNotes Sprintf text w
      = (((db.SearchNotesByTitle Sprintf text w).1.1.AppendNewFrom
            (db.SearchNotesByText Sprintf text (db.SearchNotesByTitle Sprintf text w).2).1.1,
          none),
          (db.SearchNotesByText Sprintf text (db.SearchNotesByTitle Sprintf text w).2).2) := by
  unfold BearDB.SearchNotes
  simp only [h1, h2, Option.isSome_none, Bool.false_eq_true, if_false]

/-- C6 (combined search): when the title search and then the text search both succeed,
`SearchNotes` returns a nil error and a list without duplicates: the list of
`SearchNotesByTitle` followed by the notes of the list of `SearchNotesByText` that are not
in the title list, in the order of the text list; the title list is a prefix of it. -/
theorem SearchNotes_combined (Sprintf : Formatter) (db : BearDB σ ε) (text : String)
    (w : World σ)
    (h1 : (db.SearchNotesByTitle Sprintf text w).1.2 = none)
    (h2 : (db.SearchNotesByText Sprintf text (db.SearchNotesByTitle Sprintf text w).2).1.2
      = none) :
    (db.SearchNotes Sprintf text w).1.2 = none ∧
      (db.SearchNotes Sprintf text w).1.1.GetSlice
        = (db.SearchNotesByTitle Sprintf text w).1.1.GetSlice
          ++ (db.SearchNotesByText Sprintf text
                (db.SearchNotesByTitle Sprintf text w).2).1.1.GetSlice.filter
              (fun y => decide (y ∉ (db.SearchNotesByTitle Sprintf text w).1.1.GetSlice)) ∧
      (db.SearchNotes Sprintf text w).1.1.GetSlice.Nodup ∧
      (db.SearchNotesByTitle Sprintf text w).1.1.GetSlice
        <+: (db.SearchNotes Sprintf text w).1.1.GetSlice ∧
      (db.SearchNotes Sprintf text w).2
        = (db.SearchNotesByText Sprintf text (db.SearchNotesByTitle Sprintf text w).2).2 := by
  have hs := BearDB.SearchNotes_ok Sprintf db text w h1 h2
  have hsl : (db.SearchNotes Sprintf text w).1.1.GetSlice
      = (db.SearchNotesByTitle Sprintf text w).1.1.GetSlice
        ++ (db.SearchNotesByText Sprintf text
              (db.SearchNotesByTitle Sprintf text w).2).1.1.GetSlice.filter
            (fun y => decide (y ∉ (db.SearchNotesByTitle Sprintf text w).1.1.GetSlice)) := by
    rw [hs]
    simp only [NoteList.GetSlice]
    exact NoteList.AppendNewFrom_slice _ _ (BearDB.gapQuery_consistent _ _ _ _ _)
      (BearDB.gapQuery_nodup _ _ _ _ _)
  refine ⟨by rw [hs], hsl, ?_, ?_, by rw [hs]⟩
  · rw [hsl]
    refine List.Nodup.append (BearDB.gapQuery_nodup _ _ _ _ _)
      ((BearDB.gapQuery_nodup _ _ _ _ _).filter _) ?_
    intro a ha hb
    have := (List.mem_filter.1 hb).2
    simp only [decide_eq_true_eq] at this
    exact this ha
  · rw [hsl]
    exact List.prefix_append _ _

end Orchestrator

section Orchestrator
variable {σ ε : Type}

theorem SearchNotes_combined_witness :
    (scriptedDB [([noteRow "1" "ab"], none), ([noteRow "2" "x", noteRow "1" "ab"], none)] []
      |>.SearchNotes modelSprintf "ab" world0).1.1.GetSlice = [⟨"1", "ab"⟩, ⟨"2", "x"⟩] := by
  have h := (SearchNotes_combined modelSprintf
    (scriptedDB [([noteRow "1" "ab"], none), ([noteRow "2" "x", noteRow "1" "ab"], none)] [])
    "ab" world0 (by decide) (by decide)).2.1
  rw [h]
  decide

/-- C7, as stated, fails: in the search `a b` on `gapFailDB` the text sub-search fails in
its word-gap query after its exact query succeeded with the note `7`; `SearchNotes`
returns that error after four store queries, and a list without the note `7`. -/
theorem SearchNotes_partial_counterexample :
    (gapFailDB.SearchNotesByTitle modelSprintf "a b" world0).1.2 = none ∧
    (gapFailDB.QueryNotes modelSprintf (modelSprintf notesByTextQuery [.str "a b"])
        (gapFailDB.SearchNotesByTitle modelSprintf "a b" world0).2).1
      = (NewNoteList.AppendNew [⟨"7", "n"⟩], none) ∧
    (gapFailDB.SearchNotesByText modelSprintf "a b"
        (gapFailDB.SearchNotesByTitle modelSprintf "a b" world0).2).1
      = (NewNoteList.AppendNew [⟨"7", "n"⟩], some (GoError.lower "locked")) ∧
    (gapFailDB.SearchNotes modelSprintf "a b" world0).1.2 = some (GoError.lower "locked") ∧
    (gapFailDB.SearchNotes modelSprintf "a b" world0).2.log.length = 4 ∧
    (⟨"7", "n"⟩ : Note) ∉ (gapFailDB.SearchNotes modelSprintf "a b" world0).1.1.GetSlice := by
  refine ⟨by decide, by decide, by decide, by decide, by decide, by decide⟩

/-- C7, amended (partial result on error): a failing title sub-search makes `SearchNotes`
return what the title sub-search returned (its error, its partial list, and no text query
is made); a failing text sub-search makes it return the error of the text sub-search with
the complete list of the title sub-search.  So whenever `SearchNotes` fails, its list is
the list of the title sub-search and contains the notes of the title queries that
succeeded: those of the exact title query, and those of the word-gap title query. -/
theorem SearchNotes_partial_on_error (Sprintf : Formatter) (db : BearDB σ ε) (text : String)
    (w : World σ) :
    ((db.SearchNotesByTitle Sprintf text w).1.2.isSome = true →
      db.SearchNotes Sprintf text w = db.SearchNotesByTitle Sprintf text w) ∧
    ((db.SearchNotesByTitle Sprintf text w).1.2 = none →
      (db.SearchNotesByText Sprintf text (db.SearchNotesByTitle Sprintf text w).2).1.2.isSome
        = true →
      db.SearchNotes Sprintf text w
        = (((db.SearchNotesByTitle Sprintf text w).1.1,
            (db.SearchNotesByText Sprintf text (db.SearchNotesByTitle Sprintf text w).2).1.2),
          (db.SearchNotesByText Sprintf text (db.SearchNotesByTitle Sprintf text w).2).2)) ∧
    ((db.SearchNotes Sprintf text w).1.2.isSome = true →
      (db.SearchNotes Sprintf text w).1.1 = (db.SearchNotesByTitle Sprintf text w).1.1 ∧
      (∀ n, n ∈ (db.QueryNotes Sprintf (Sprintf notesByTitleQuery [.str text]) w).1.1.GetSlice →
        n ∈ (db.SearchNotes Sprintf text w).1.1.GetSlice) ∧
      ((db.QueryNotes Sprintf (Sprintf notesByTitleQuery [.str text]) w).1.2 = none →
        (Split text " ").length > 1 →
        ∀ n, n ∈ (db.QueryNotes Sprintf
              (Sprintf notesByTitleQuery [.str (Join (Split text " ") "% %")])
              (db.QueryNotes Sprintf (Sprintf notesByTitleQuery [.str text]) w).2).1.1.GetSlice →
          n ∈ (db.SearchNotes Sprintf text w).1.1.GetSlice)) := by
  have hA : (db.SearchNotesByTitle Sprintf text w).1.2.isSome = true →
      db.SearchNotes Sprintf text w = db.SearchNotesByTitle Sprintf text w := by
    intro h
    unfold BearDB.SearchNotes
    simp only [h, if_true]
  have hB : (db.SearchNotesByTitle Sprintf text w).1.2 = none →
      (db.SearchNotesByText Sprintf text (db.SearchNotesByTitle Sprintf text w).2).1.2.isSome
        = true →
      db.SearchNotes Sprintf text w
        = (((db.SearchNotesByTitle Sprintf text w).1.1,
            (db.SearchNotesByText Sprintf text (db.SearchNotesByTitle Sprintf text w).2).1.2),
          (db.SearchNotesByText Sprintf text (db.SearchNotesByTitle Sprintf text w).2).2) := by
    intro h1 h2
    unfold BearDB.SearchNotes
    simp only [h1, h2, Option.isSome_none, Bool.false_eq_true, if_false, if_true]
  have hC : (db.SearchNotes Sprintf text w).1.2.isSome = true →
      (db.SearchNotes Sprintf text w).1.1 = (db.SearchNotesByTitle Sprintf text w).1.1 := by
    intro h
    by_cases h1 : (db.SearchNotesByTitle Sprintf text w).1.2.isSome = true
    · rw [hA h1]
    · have h1' : (db.SearchNotesByTitle Sprintf text w).1.2 = none := by simpa using h1
      by_cases h2 : (db.SearchNotesByText Sprintf text
          (db.SearchNotesByTitle Sprintf text w).2).1.2.isSome = true
      · rw [hB h1' h2]
      · have h2' : (db.SearchNotesByText Sprintf text
            (db.SearchNotesByTitle Sprintf text w).2).1.2 = none := by simpa using h2
        rw [BearDB.SearchNotes_ok Sprintf db text w h1' h2'] at h
        simp at h
  refine ⟨hA, hB, fun h => ⟨hC h, ?_, ?_⟩⟩
  · intro n hn
    rw [hC h]
    exact (BearDB.gapQuery_prefix Sprintf db notesByTitleQuery text w).subset hn
  · intro hq hF n hn
    rw [hC h]
    unfold BearDB.SearchNotesByTitle
    rw [BearDB.gapQuery_multi Sprintf db notesByTitleQuery text w hF hq]
    split
    · rename_i he
      rw [BearDB.QueryNotes_err_list Sprintf db _ _ he] at hn
      simp [NewNoteList, NoteList.GetSlice] at hn
    · simp only [NoteList.GetSlice] at hn ⊢
      rw [NoteList.AppendNewFrom_slice _ _ (BearDB.QueryNotes_consistent _ _ _ _)
        (BearDB.QueryNotes_nodup _ _ _ _)]
      by_cases hm : n ∈ (db.QueryNotes Sprintf (Sprintf notesByTitleQuery [.str text]) w).1.1.slice
      · exact List.mem_append_left _ hm
      · exact List.mem_append_right _ (List.mem_filter.2 ⟨hn, by simpa using hm⟩)

end Orchestrator

theorem SearchNotes_partial_on_error_witness :
    (⟨"1", "a b"⟩ : Note) ∈
      (scriptedDB [([noteRow "1" "a b"], none), ([], some "locked")] []
        |>.SearchNotes modelSprintf "a b" world0).1.1.GetSlice :=
  ((SearchNotes_partial_on_error modelSprintf
    (scriptedDB [([noteRow "1" "a b"], none), ([], some "locked")] []) "a b" world0).2.2
    (by decide)).2.1 ⟨"1", "a b"⟩ (by decide)

/-! ### The formatting model -/

theorem doPrintf_literal (pre rest : List Char) (a : List Operand) (h : '%' ∉ pre) :
    doPrintf (pre ++ rest) a = (doPrintf rest a).map (fun out => pre ++ out) := by
  induction pre with
  | nil => simp
  | cons c pre ih =>
    have hc : c ≠ '%' := fun e => h (by simp [e])
    have hp : '%' ∉ pre := fun e => h (List.mem_cons_of_mem _ e)
    rw [List.cons_append, doPrintf.eq_def]
    simp only [if_neg hc]
    rw [ih hp, Option.map_map]
    rfl

theorem doPrintf_tail (post : List Char) (h : '%' ∉ post) : doPrintf post [] = some post := by
  have := doPrintf_literal post [] [] h
  simpa [doPrintf, extraOperands] using this

theorem doPrintf_percent (rest : List Char) (a : List Operand) :
    doPrintf ('%' :: '%' :: rest) a = (doPrintf rest a).map (fun out => '%' :: out) := by
  rw [doPrintf.eq_def]
  simp

theorem doPrintf_v_str (rest : List Char) (s : String) (a : List Operand) :
    doPrintf ('%' :: 'v' :: rest) (.str s :: a)
      = (doPrintf rest a).map (fun out => s.data ++ out) := by
  rw [doPrintf.eq_def]
  simp [Operand.print]

theorem doPrintf_s_str (rest : List Char) (s : String) (a : List Operand) :
    doPrintf ('%' :: 's' :: rest) (.str s :: a)
      = (doPrintf rest a).map (fun out => s.data ++ out) := by
  rw [doPrintf.eq_def]
  simp [Operand.print]

theorem doPrintf_v_int (rest : List Char) (i : Int) (a : List Operand) :
    doPrintf ('%' :: 'v' :: rest) (.int i :: a)
      = (doPrintf rest a).map (fun out => (toString i).data ++ out) := by
  rw [doPrintf.eq_def]
  simp [Operand.print]

/-- A format with one `%v` slot between verb-free texts: the slot is replaced by the
operand, character for character. -/
theorem goSprintf_slot (pre post s : String) (h1 : '%' ∉ pre.data) (h2 : '%' ∉ post.data) :
    goSprintf (pre ++ "%v" ++ post) [.str s] = some (pre ++ s ++ post) := by
  have hv : ("%v" : String).data = ['%', 'v'] := rfl
  unfold goSprintf
  rw [String.data_append, String.data_append, hv, List.append_assoc,
    doPrintf_literal _ _ _ h1, List.cons_append, List.cons_append, List.nil_append,
    doPrintf_v_str, doPrintf_tail _ h2]
  simp only [Option.map_some']
  congr 1
  apply String.ext
  simp [String.data_append]

/-- A format with the slot `%%%v%%` between verb-free texts: the operand appears between
two percent signs, character for character. -/
theorem goSprintf_contains (pre post s : String) (h1 : '%' ∉ pre.data)
    (h2 : '%' ∉ post.data) :
    goSprintf (pre ++ "%%%v%%" ++ post) [.str s] = some (pre ++ "%" ++ s ++ "%" ++ post) := by
  have hv : ("%%%v%%" : String).data = ['%', '%', '%', 'v', '%', '%'] := rfl
  have hp : ("%" : String).data = ['%'] := rfl
  unfold goSprintf
  rw [String.data_append, String.data_append, hv, List.append_assoc,
    doPrintf_literal _ _ _ h1]
  simp only [List.cons_append, List.nil_append]
  rw [doPrintf_percent, doPrintf_v_str, doPrintf_percent, doPrintf_tail _ h2]
  simp only [Option.map_some']
  congr 1
  apply String.ext
  simp [String.data_append, hp]

theorem goSprintf_limit (q : String) (i : Int) :
    goSprintf "%s LIMIT %v" [.str q, .int i] = some (q ++ " LIMIT " ++ toString i) := by
  show Option.map String.mk (some (q.data ++ (" LIMIT ".data ++ ((toString i).data ++ []))))
    = _
  simp only [List.append_nil, Option.map_some']
  congr 1
  apply String.ext
  simp [String.data_append]

theorem goFmt_modelSprintf : GoFmt modelSprintf := by
  intro format a out h
  simp [modelSprintf, h]

/-! ### The templates -/

set_option maxRecDepth 100000 in
theorem notesByTitleQuery_eq :
    notesByTitleQuery = notesSelect ++ "lower(ZTITLE) LIKE lower('" ++ "%%%v%%" ++ ("')" ++ notesOrder) := by
  decide

set_option maxRecDepth 100000 in
theorem notesByTextQuery_eq :
    notesByTextQuery = notesSelect ++ "lower(ZTEXT) LIKE lower('" ++ "%%%v%%" ++ ("')" ++ notesOrder) := by
  decide

set_option maxRecDepth 100000 in
theorem tagQuery_eq :
    tagQuery = tagSelect ++ "lower(t.ZTITLE) LIKE lower('" ++ "%%%v%%" ++ ("')" ++ tagOrder) := by
  decide

set_option maxRecDepth 100000 in
theorem titleByIDQuery_eq :
    titleByIDQuery
      = "\n\tSELECT DISTINCT\n\t\tZTITLE \n\tFROM \n\t\tZSFNOTE \n\tWHERE \n\t\tZARCHIVED=0 \n\t\tAND ZTRASHED=0 \n\t\tAND ZUNIQUEIDENTIFIER='"
        ++ "%v" ++ "' \n\tORDER BY \n\t\tZMODIFICATIONDATE DESC \n" := by
  decide

theorem goSprintf_notesByTitleQuery (s : String) :
    goSprintf notesByTitleQuery [.str s]
      = some (notesSelect ++ likeFilter "ZTITLE" s ++ notesOrder) := by
  rw [notesByTitleQuery_eq, goSprintf_contains _ _ s (by decide) (by decide)]
  have h : ∀ t : String, "%" ++ ("')" ++ t) = "%')" ++ t := fun t => by
    rw [← String.append_assoc]; rfl
  simp [likeFilter, String.append_assoc, h]

theorem goSprintf_notesByTextQuery (s : String) :
    goSprintf notesByTextQuery [.str s]
      = some (notesSelect ++ likeFilter "ZTEXT" s ++ notesOrder) := by
  rw [notesByTextQuery_eq, goSprintf_contains _ _ s (by decide) (by decide)]
  have h : ∀ t : String, "%" ++ ("')" ++ t) = "%')" ++ t := fun t => by
    rw [← String.append_assoc]; rfl
  simp [likeFilter, String.append_assoc, h]

theorem goSprintf_tagQuery (s : String) :
    goSprintf tagQuery [.str s]
      = some (tagSelect ++ likeFilter "t.ZTITLE" s ++ tagOrder) := by
  rw [tagQuery_eq, goSprintf_contains _ _ s (by decide) (by decide)]
  have h : ∀ t : String, "%" ++ ("')" ++ t) = "%')" ++ t := fun t => by
    rw [← String.append_assoc]; rfl
  simp [likeFilter, String.append_assoc, h]

theorem goSprintf_notFound (id : String) :
    goSprintf "No notes for ID '%v'" [.str id] = some ("No notes for ID '" ++ id ++ "'") :=
  goSprintf_slot "No notes for ID '" "'" id (by decide) (by decide)

section Orchestrator
variable {σ ε : Type}

/-! ### Queries handed to the store -/

theorem BearDB.gapQuery_log (Sprintf : Formatter) (db : BearDB σ ε) (T F : String)
    (w : World σ) :
    (db.gapQuery Sprintf T F w).2.log
        = w.log ++ [db.limitQuery Sprintf (Sprintf T [.str F])] ∨
      (db.gapQuery Sprintf T F w).2.log
        = w.log ++ [db.limitQuery Sprintf (Sprintf T [.str F]),
            db.limitQuery Sprintf (Sprintf T [.str (Join (Split F " ") "% %")])] := by
  by_cases h1 : (db.QueryNotes Sprintf (Sprintf T [.str F]) w).1.2.isSome = true
  · left
    rw [BearDB.gapQuery_first_err Sprintf db T F w h1, BearDB.QueryNotes_log]
  · by_cases hF : (Split F " ").length > 1
    · right
      rw [BearDB.gapQuery_multi Sprintf db T F w hF (by simpa using h1)]
      split
      · simp only []
        rw [BearDB.QueryNotes_log, BearDB.QueryNotes_log]
        simp
      · simp only []
        rw [BearDB.QueryNotes_log, BearDB.QueryNotes_log]
        simp
    · left
      rw [BearDB.gapQuery_single Sprintf db T F w hF, BearDB.QueryNotes_log]

theorem BearDB.SearchTags_log (Sprintf : Formatter) (db : BearDB σ ε) (s : String)
    (w : World σ) :
    (db.SearchTags Sprintf s w).2.log
      = w.log ++ [db.limitQuery Sprintf (Sprintf tagQuery [.str s])] := rfl

theorem BearDB.GetTitle_log (Sprintf : Formatter) (db : BearDB σ ε) (id : String)
    (w : World σ) :
    (db.GetTitle Sprintf id w).2.log
      = w.log ++ [db.limitQuery Sprintf (Sprintf titleByIDQuery [.str id])] := by
  unfold BearDB.GetTitle
  simp only []
  split
  · rfl
  · split <;> rfl

theorem BearDB.SearchNotes_log (Sprintf : Formatter) (db : BearDB σ ε) (text : String)
    (w : World σ) :
    (db.SearchNotes Sprintf text w).2.log = (db.SearchNotesByTitle Sprintf text w).2.log ∨
      (db.SearchNotes Sprintf text w).2.log
        = (db.SearchNotesByText Sprintf text (db.SearchNotesByTitle Sprintf text w).2).2.log := by
  unfold BearDB.SearchNotes
  simp only []
  split
  · left; rfl
  · right
    split <;> rfl

theorem BearDB.limitQuery_eq (Sprintf : Formatter) (hS : GoFmt Sprintf) (db : BearDB σ ε)
    (q : String) : db.limitQuery Sprintf q = q ++ " LIMIT " ++ toString db.limit :=
  hS _ _ _ (goSprintf_limit q db.limit)

theorem filledTemplate_of_mem (Sprintf : Formatter) (T fill : String)
    (h : T ∈ [tagQuery, titleByIDQuery, notesByTitleQuery, notesByTextQuery]) :
    FilledTemplate Sprintf (Sprintf T [.str fill]) :=
  Or.inr ⟨T, h, fill, rfl⟩

/-- Each query of a gap search is the capped filling of its template. -/
theorem BearDB.gapQuery_queries (Sprintf : Formatter) (db : BearDB σ ε) (T F : String)
    (w : World σ) :
    ∃ qs, (db.gapQuery Sprintf T F w).2.log = w.log ++ qs ∧
      ∀ q, q ∈ qs → ∃ fill, q = db.limitQuery Sprintf (Sprintf T [.str fill]) := by
  rcases BearDB.gapQuery_log Sprintf db T F w with h | h
  · refine ⟨_, h, ?_⟩
    intro q hq
    simp only [List.mem_singleton] at hq
    exact ⟨F, hq⟩
  · refine ⟨_, h, ?_⟩
    intro q hq
    simp only [List.mem_cons, List.mem_singleton, List.not_mem_nil, or_false] at hq
    rcases hq with hq | hq
    · exact ⟨F, hq⟩
    · exact ⟨_, hq⟩

/-- Every query of a public operation is the capped text of a filled template. -/
theorem Request.after_queries (Sprintf : Formatter) (db : BearDB σ ε) (req : Request)
    (w : World σ) :
    ∃ qs, (req.after Sprintf db w).log = w.log ++ qs ∧
      ∀ q, q ∈ qs → ∃ f, FilledTemplate Sprintf f ∧ q = db.limitQuery Sprintf f := by
  cases req with
  | searchTags s =>
    refine ⟨_, BearDB.SearchTags_log Sprintf db s w, ?_⟩
    intro q hq
    simp only [List.mem_singleton] at hq
    exact ⟨_, filledTemplate_of_mem Sprintf tagQuery s (by simp), hq⟩
  | getRecent =>
    refine ⟨_, BearDB.QueryNotes_log Sprintf db recentQuery w, ?_⟩
    intro q hq
    simp only [List.mem_singleton] at hq
    exact ⟨_, Or.inl rfl, hq⟩
  | getTitle id =>
    refine ⟨_, BearDB.GetTitle_log Sprintf db id w, ?_⟩
    intro q hq
    simp only [List.mem_singleton] at hq
    exact ⟨_, filledTemplate_of_mem Sprintf titleByIDQuery id (by simp), hq⟩
  | searchNotesByTitle title =>
    obtain ⟨qs, h, hq⟩ := BearDB.gapQuery_queries Sprintf db notesByTitleQuery title w
    refine ⟨qs, h, ?_⟩
    intro q hm
    obtain ⟨fill, hf⟩ := hq q hm
    exact ⟨_, filledTemplate_of_mem Sprintf notesByTitleQuery fill (by simp), hf⟩
  | searchNotesByText text =>
    obtain ⟨qs, h, hq⟩ := BearDB.gapQuery_queries Sprintf db notesByTextQuery text w
    refine ⟨qs, h, ?_⟩
    intro q hm
    obtain ⟨fill, hf⟩ := hq q hm
    exact ⟨_, filledTemplate_of_mem Sprintf notesByTextQuery fill (by simp), hf⟩
  | searchNotes text =>
    obtain ⟨qs, h, hq⟩ := BearDB.gapQuery_queries Sprintf db notesByTitleQuery text w
    have hq1 : ∀ q, q ∈ qs → ∃ f, FilledTemplate Sprintf f ∧ q = db.limitQuery Sprintf f := by
      intro q hm
      obtain ⟨fill, hf⟩ := hq q hm
      exact ⟨_, filledTemplate_of_mem Sprintf notesByTitleQuery fill (by simp), hf⟩
    obtain ⟨qs2, h2, hq2⟩ := BearDB.gapQuery_queries Sprintf db notesByTextQuery text
      (db.gapQuery Sprintf notesByTitleQuery text w).2
    rcases BearDB.SearchNotes_log Sprintf db text w with hl | hl
    · exact ⟨qs, hl.trans h, hq1⟩
    · refine ⟨qs ++ qs2, ?_, ?_⟩
      · show (db.SearchNotes Sprintf text w).2.log = _
        rw [hl]
        show (db.gapQuery Sprintf notesByTextQuery text
          (db.gapQuery Sprintf notesByTitleQuery text w).2).2.log = _
        rw [h2, h, List.append_assoc]
      · intro q hm
        rcases List.mem_append.1 hm with hm | hm
        · exact hq1 q hm
        · obtain ⟨fill, hf⟩ := hq2 q hm
          exact ⟨_, filledTemplate_of_mem Sprintf notesByTextQuery fill (by simp), hf⟩

end Orchestrator

section Orchestrator
variable {σ ε : Type}

/-! ### `GetTitle` -/

theorem BearDB.GetTitle_err (Sprintf : Formatter) (db : BearDB σ ε) (id : String)
    (w : World σ) (e : ε)
    (h : (db.lite.QueryStrings (db.limitQuery Sprintf (Sprintf titleByIDQuery [.str id]))
      w.store).1.2 = some e) :
    (db.GetTitle Sprintf id w).1 = ("", some (GoError.lower e)) := by
  simp [BearDB.GetTitle, BearDB.liteQueryStrings, h]

theorem BearDB.GetTitle_none (Sprintf : Formatter) (db : BearDB σ ε) (id : String)
    (w : World σ)
    (h : (db.lite.QueryStrings (db.limitQuery Sprintf (Sprintf titleByIDQuery [.str id]))
      w.store).1.2 = none)
    (h0 : (db.lite.QueryStrings (db.limitQuery Sprintf (Sprintf titleByIDQuery [.str id]))
      w.store).1.1 = []) :
    (db.GetTitle Sprintf id w).1
      = ("", some (GoError.errorf (Sprintf "No notes for ID '%v'" [.str id]))) := by
  simp [BearDB.GetTitle, BearDB.liteQueryStrings, h, h0]

theorem BearDB.GetTitle_first (Sprintf : Formatter) (db : BearDB σ ε) (id : String)
    (w : World σ) (t : String) (ts : List String)
    (h : (db.lite.QueryStrings (db.limitQuery Sprintf (Sprintf titleByIDQuery [.str id]))
      w.store).1.2 = none)
    (h0 : (db.lite.QueryStrings (db.limitQuery Sprintf (Sprintf titleByIDQuery [.str id]))
      w.store).1.1 = t :: ts) :
    (db.GetTitle Sprintf id w).1 = (t, none) := by
  simp [BearDB.GetTitle, BearDB.liteQueryStrings, h, h0]

/-- C8 (not-found contract of `GetTitle`): `GetTitle(id)` returns the empty string with a
non-nil error exactly when the store query fails or succeeds with zero rows.  A failing
store gives the error of the store; a success with zero rows gives the error made by
`Errorf` with the message `No notes for ID '<id>'`, which is neither nil nor an error of
the store; a success with one or more rows gives the first row with a nil error. -/
theorem GetTitle_not_found (Sprintf : Formatter) (hS : GoFmt Sprintf) (db : BearDB σ ε)
    (id : String) (w : World σ) :
    (((db.GetTitle Sprintf id w).1.1 = "" ∧ (db.GetTitle Sprintf id w).1.2.isSome = true) ↔
      ((db.lite.QueryStrings (db.limitQuery Sprintf (Sprintf titleByIDQuery [.str id]))
          w.store).1.2.isSome = true ∨
        ((db.lite.QueryStrings (db.limitQuery Sprintf (Sprintf titleByIDQuery [.str id]))
            w.store).1.2 = none ∧
          (db.lite.QueryStrings (db.limitQuery Sprintf (Sprintf titleByIDQuery [.str id]))
            w.store).1.1 = []))) ∧
    (∀ e, (db.lite.QueryStrings (db.limitQuery Sprintf (Sprintf titleByIDQuery [.str id]))
        w.store).1.2 = some e →
      (db.GetTitle Sprintf id w).1 = ("", some (GoError.lower e))) ∧
    ((db.lite.QueryStrings (db.limitQuery Sprintf (Sprintf titleByIDQuery [.str id]))
        w.store).1.2 = none →
      (db.lite.QueryStrings (db.limitQuery Sprintf (Sprintf titleByIDQuery [.str id]))
        w.store).1.1 = [] →
      (db.GetTitle Sprintf id w).1
          = ("", some (GoError.errorf ("No notes for ID '" ++ id ++ "'"))) ∧
        (db.GetTitle Sprintf id w).1.2 ≠ none ∧
        ∀ e, (db.GetTitle Sprintf id w).1.2 ≠ some (GoError.lower e)) ∧
    (∀ t ts,
      (db.lite.QueryStrings (db.limitQuery Sprintf (Sprintf titleByIDQuery [.str id]))
        w.store).1.2 = none →
      (db.lite.QueryStrings (db.limitQuery Sprintf (Sprintf titleByIDQuery [.str id]))
        w.store).1.1 = t :: ts →
      (db.GetTitle Sprintf id w).1 = (t, none)) := by
  have hmsg : Sprintf "No notes for ID '%v'" [.str id] = "No notes for ID '" ++ id ++ "'" :=
    hS _ _ _ (goSprintf_notFound id)
  refine ⟨?_, fun e he => BearDB.GetTitle_err Sprintf db id w e he, ?_,
    fun t ts h h0 => BearDB.GetTitle_first Sprintf db id w t ts h h0⟩
  · cases he : (db.lite.QueryStrings (db.limitQuery Sprintf (Sprintf titleByIDQuery [.str id]))
        w.store).1.2 with
    | some e =>
      rw [BearDB.GetTitle_err Sprintf db id w e he]
      simp
    | none =>
      cases h0 : (db.lite.QueryStrings
          (db.limitQuery Sprintf (Sprintf titleByIDQuery [.str id])) w.store).1.1 with
      | nil =>
        rw [BearDB.GetTitle_none Sprintf db id w he h0]
        simp
      | cons t ts =>
        rw [BearDB.GetTitle_first Sprintf db id w t ts he h0]
        simp
  · intro h h0
    have hg := BearDB.GetTitle_none Sprintf db id w h h0
    rw [hmsg] at hg
    rw [hg]
    refine ⟨rfl, by simp, ?_⟩
    intro e he
    simp at he

theorem GetTitle_not_found_witness :
    (scriptedDB [] [([], none)] |>.GetTitle modelSprintf "X" world0).1
      = ("", some (GoError.errorf "No notes for ID 'X'")) :=
  ((GetTitle_not_found modelSprintf goFmt_modelSprintf (scriptedDB [] [([], none)]) "X"
    world0).2.2.1 rfl rfl).1

end Orchestrator

section Orchestrator
variable {σ ε : Type}

/-! ### The cap -/

/-- C9 (cap applied uniformly): `limitQuery(q)` is `q`, then ` LIMIT `, then the limit in
decimal; every SQL text that a public operation (`SearchTags`, `GetRecent`, `GetTitle`,
`SearchNotesByTitle`, `SearchNotesByText`, `SearchNotes`) hands to the store is
`limitQuery` of a filled template, that is the filled template followed by one cap clause;
and for the `BearDB` of `NewBearDB` that clause is ` LIMIT 25`. -/
theorem cap_applied_uniformly (Sprintf : Formatter) (hS : GoFmt Sprintf) (db : BearDB σ ε) :
    (∀ q, db.limitQuery Sprintf q = q ++ " LIMIT " ++ toString db.limit) ∧
    (∀ (req : Request) (w : World σ),
      ∃ qs, (req.after Sprintf db w).log = w.log ++ qs ∧
        ∀ q, q ∈ qs → ∃ f, FilledTemplate Sprintf f ∧ q = db.limitQuery Sprintf f ∧
          q = f ++ " LIMIT " ++ toString db.limit) ∧
    (∀ (lite : LiteDB σ ε) (err : Option ε) (req : Request) (w : World σ),
      ∃ qs, (req.after Sprintf (NewBearDB lite err).1 w).log = w.log ++ qs ∧
        ∀ q, q ∈ qs → ∃ f, FilledTemplate Sprintf f ∧ q = f ++ " LIMIT 25") := by
  refine ⟨BearDB.limitQuery_eq Sprintf hS db, ?_, ?_⟩
  · intro req w
    obtain ⟨qs, h, hq⟩ := Request.after_queries Sprintf db req w
    refine ⟨qs, h, ?_⟩
    intro q hm
    obtain ⟨f, hf, he⟩ := hq q hm
    exact ⟨f, hf, he, he.trans (BearDB.limitQuery_eq Sprintf hS db f)⟩
  · intro lite err req w
    obtain ⟨qs, h, hq⟩ := Request.after_queries Sprintf (NewBearDB lite err).1 req w
    refine ⟨qs, h, ?_⟩
    intro q hm
    obtain ⟨f, hf, he⟩ := hq q hm
    refine ⟨f, hf, he.trans ?_⟩
    rw [BearDB.limitQuery_eq Sprintf hS]
    have h25 : toString (NewBearDB lite err).1.limit = "25" := rfl
    rw [h25, String.append_assoc]
    rfl

theorem cap_applied_uniformly_witness :
    (scriptedDB [] []).limitQuery modelSprintf "SELECT 1" = "SELECT 1 LIMIT 25" :=
  (cap_applied_uniformly modelSprintf goFmt_modelSprintf (scriptedDB [] [])).1 "SELECT 1"

end Orchestrator

section Orchestrator
variable {σ ε : Type}

/-! ### Substitution of the input -/

theorem get?_append_cons_length (l t : List String) (a : String) :
    (l ++ a :: t).get? l.length = some a := by
  induction l with
  | nil => rfl
  | cons x l ih => simpa using ih

theorem BearDB.gapQuery_first_query (Sprintf : Formatter) (db : BearDB σ ε) (T F : String)
    (w : World σ) :
    (db.gapQuery Sprintf T F w).2.log.get? w.log.length
      = some (db.limitQuery Sprintf (Sprintf T [.str F])) := by
  rcases BearDB.gapQuery_log Sprintf db T F w with h | h <;> rw [h] <;>
    exact get?_append_cons_length _ _ _

set_option maxRecDepth 100000 in
/-- C10 (literal substitution into a contains-pattern): for every input `s`, the query
text that `SearchNotesByTitle(s)`, `SearchNotesByText(s)` and `SearchTags(s)` build first
is the template with its slot `%%%v%%` replaced by `%`, `s`, `%`: the filter reads
`lower(column) LIKE lower('%s%')` with `s` unchanged, whatever characters it has; that
text, capped by `limitQuery`, is the first query handed to the store. -/
theorem literal_substitution (Sprintf : Formatter) (hS : GoFmt Sprintf) (db : BearDB σ ε)
    (s : String) (w : World σ) :
    (notesByTitleQuery = notesSelect ++ "lower(ZTITLE) LIKE lower('%%%v%%')" ++ notesOrder ∧
      notesByTextQuery = notesSelect ++ "lower(ZTEXT) LIKE lower('%%%v%%')" ++ notesOrder ∧
      tagQuery = tagSelect ++ "lower(t.ZTITLE) LIKE lower('%%%v%%')" ++ tagOrder) ∧
    (Sprintf notesByTitleQuery [.str s] = notesSelect ++ likeFilter "ZTITLE" s ++ notesOrder ∧
      Sprintf notesByTextQuery [.str s] = notesSelect ++ likeFilter "ZTEXT" s ++ notesOrder ∧
      Sprintf tagQuery [.str s] = tagSelect ++ likeFilter "t.ZTITLE" s ++ tagOrder) ∧
    ((db.SearchNotesByTitle Sprintf s w).2.log.get? w.log.length
        = some (db.limitQuery Sprintf (notesSelect ++ likeFilter "ZTITLE" s ++ notesOrder)) ∧
      (db.SearchNotesByText Sprintf s w).2.log.get? w.log.length
        = some (db.limitQuery Sprintf (notesSelect ++ likeFilter "ZTEXT" s ++ notesOrder)) ∧
      (db.SearchTags Sprintf s w).2.log.get? w.log.length
        = some (db.limitQuery Sprintf (tagSelect ++ likeFilter "t.ZTITLE" s ++ tagOrder))) ∧
    likeFilter "ZTITLE" s = "lower(ZTITLE) LIKE lower('%" ++ s ++ "%')" := by
  have h1 := hS _ _ _ (goSprintf_notesByTitleQuery s)
  have h2 := hS _ _ _ (goSprintf_notesByTextQuery s)
  have h3 := hS _ _ _ (goSprintf_tagQuery s)
  refine ⟨⟨by decide, by decide, by decide⟩, ⟨h1, h2, h3⟩, ⟨?_, ?_, ?_⟩, ?_⟩
  · rw [← h1]
    exact BearDB.gapQuery_first_query Sprintf db notesByTitleQuery s w
  · rw [← h2]
    exact BearDB.gapQuery_first_query Sprintf db notesByTextQuery s w
  · rw [← h3, BearDB.SearchTags_log]
    exact get?_append_cons_length _ _ _
  · simp [likeFilter, String.append_assoc]

theorem literal_substitution_witness :
    modelSprintf notesByTitleQuery [.str "50%' OR '1'='1"]
      = notesSelect ++ likeFilter "ZTITLE" "50%' OR '1'='1" ++ notesOrder :=
  (literal_substitution modelSprintf goFmt_modelSprintf (scriptedDB [] []) "50%' OR '1'='1"
    world0).2.1.1

end Orchestrator

/-! ### Stability of the list under appends -/

theorem NoteListCall.run_eq_AppendNew (L : NoteList) (c : NoteListCall) :
    c.run L = L.AppendNew c.notes := by
  cases c <;> rfl

theorem NoteList.appendOne_of_contains (L : NoteList) (n : Note) (h : L.Contains n = true) :
    L.appendOne n = L := by
  simp [NoteList.appendOne, h]

theorem NoteList.AppendNew_of_contains (L : NoteList) (xs : List Note)
    (h : ∀ n, n ∈ xs → L.Contains n = true) : L.AppendNew xs = L := by
  unfold NoteList.AppendNew
  induction xs with
  | nil => rfl
  | cons x xs ih =>
    rw [List.foldl_cons, NoteList.appendOne_of_contains L x (h x (List.mem_cons_self _ _))]
    exact ih (fun n hn => h n (List.mem_cons_of_mem _ hn))

theorem NoteList.AppendNew_prefix (L : NoteList) (hL : L.Consistent) (xs : List Note) :
    L.slice <+: (L.AppendNew xs).slice := by
  rw [NoteList.AppendNew_slice L hL xs]
  exact List.prefix_append _ _

theorem NoteList.AppendNew_wellFormed (L : NoteList) (hL : L.WellFormed) (xs : List Note) :
    (L.AppendNew xs).WellFormed := by
  refine ⟨NoteList.AppendNew_consistent L hL.1 xs, ?_⟩
  rw [NoteList.AppendNew_slice L hL.1 xs]
  refine List.Nodup.append hL.2 ((nodup_firstOccurrences xs).filter _) ?_
  intro a ha hb
  have := (List.mem_filter.1 hb).2
  simp only [decide_eq_true_eq] at this
  exact this ha

theorem get?_of_prefix (l₁ l : List Note) (h : l₁ <+: l) (i : Nat) (hi : i < l₁.length) :
    l.get? i = l₁.get? i := by
  obtain ⟨t, rfl⟩ := h
  simp [List.getElem?_append_left hi]

/-- C12 (order stability and no removal): for a well-formed list `L` and a call
`AppendNew(xs)` or `AppendNewFrom(B)`, the slice before the call is a prefix of the slice
after it; every note already present keeps its position; `Len` does not decrease; the
list stays well-formed; and when every offered note is already contained, the list (set
and slice) is unchanged. -/
theorem order_stability (L : NoteList) (hL : L.WellFormed) (c : NoteListCall) :
    L.GetSlice <+: (c.run L).GetSlice ∧
      (∀ i, i < L.GetSlice.length → (c.run L).GetSlice.get? i = L.GetSlice.get? i) ∧
      (∀ n, n ∈ L.GetSlice → (c.run L).GetSlice.indexOf n = L.GetSlice.indexOf n) ∧
      L.Len ≤ (c.run L).Len ∧
      (c.run L).WellFormed ∧
      ((∀ n, n ∈ c.notes → L.Contains n = true) → c.run L = L) := by
  rw [NoteListCall.run_eq_AppendNew]
  have hp : L.slice <+: (L.AppendNew c.notes).slice := NoteList.AppendNew_prefix L hL.1 _
  refine ⟨hp, fun i hi => get?_of_prefix _ _ hp i hi, ?_, ?_,
    NoteList.AppendNew_wellFormed L hL _, NoteList.AppendNew_of_contains L _⟩
  · intro n hn
    obtain ⟨t, ht⟩ := hp
    simp only [NoteList.GetSlice]
    rw [← ht]
    exact List.indexOf_append_of_mem hn
  · simp only [NoteList.Len]
    exact_mod_cast hp.length_le

theorem order_stability_witness :
    (NoteListCall.run (NewNoteList.AppendNew [⟨"1", "x"⟩, ⟨"2", "y"⟩])
      (.appendNewFrom ⟨[], [⟨"2", "y"⟩, ⟨"1", "x"⟩, ⟨"2", "y"⟩]⟩))
      = NewNoteList.AppendNew [⟨"1", "x"⟩, ⟨"2", "y"⟩] :=
  (order_stability (NewNoteList.AppendNew [⟨"1", "x"⟩, ⟨"2", "y"⟩])
    (NoteList.AppendNew_wellFormed _ ⟨NoteList.consistent_new, List.nodup_nil⟩ _)
    (.appendNewFrom ⟨[], [⟨"2", "y"⟩, ⟨"1", "x"⟩, ⟨"2", "y"⟩]⟩)).2.2.2.2.2 (by decide)

/-! ### Idempotence of merging -/

theorem NoteList.mem_AppendNew_slice (L : NoteList) (hL : L.Consistent) (xs : List Note)
    (n : Note) (hn : n ∈ xs) : n ∈ (L.AppendNew xs).slice := by
  rw [NoteList.AppendNew_slice L hL xs]
  by_cases h : n ∈ L.slice
  · exact List.mem_append_left _ h
  · exact List.mem_append_right _
      (List.mem_filter.2 ⟨(mem_firstOccurrences xs n).2 hn, by simpa using h⟩)

/-- C19 (merging is idempotent and absorbs sublists): for well-formed `A` and `B`, merging
`B` into `A` a second time leaves `A` as after the first merge; merging into `A` a list
whose notes `A` all contains, such as a copy of the slice of `A`, leaves `A` unchanged;
and merging `B` into a fresh `NewNoteList()` yields the slice of `B`. -/
theorem merge_idempotent (A B : NoteList) (hA : A.WellFormed) (hB : B.WellFormed) :
    (A.AppendNewFrom B).AppendNewFrom B = A.AppendNewFrom B ∧
      (∀ C : NoteList, (∀ n, n ∈ C.GetSlice → A.Contains n = true) →
        A.AppendNewFrom C = A) ∧
      (∀ m : NoteMap, A.AppendNewFrom { set := m, slice := A.GetSlice } = A) ∧
      (NewNoteList.AppendNewFrom B).GetSlice = B.GetSlice := by
  refine ⟨?_, ?_, ?_, ?_⟩
  · apply NoteList.AppendNew_of_contains
    intro n hn
    exact ((NoteList.AppendNew_consistent A hA.1 B.slice) n).2
      (NoteList.mem_AppendNew_slice A hA.1 B.slice n hn)
  · intro C hC
    exact NoteList.AppendNew_of_contains A C.slice hC
  · intro m
    exact NoteList.AppendNew_of_contains A A.slice (fun n hn => (hA.1 n).2 hn)
  · simp only [NoteList.AppendNewFrom, NoteList.GetSlice]
    rw [NoteList.AppendNew_new_slice, firstOccurrences_of_nodup _ hB.2]

theorem merge_idempotent_witness :
    (NewNoteList.AppendNew [⟨"1", "x"⟩, ⟨"2", "y"⟩]).AppendNewFrom
        ⟨[], [⟨"2", "y"⟩, ⟨"2", "y"⟩]⟩
      = NewNoteList.AppendNew [⟨"1", "x"⟩, ⟨"2", "y"⟩] :=
  (merge_idempotent (NewNoteList.AppendNew [⟨"1", "x"⟩, ⟨"2", "y"⟩])
    (NewNoteList.AppendNew [⟨"3", "z"⟩])
    (NoteList.AppendNew_wellFormed _ ⟨NoteList.consistent_new, List.nodup_nil⟩ _)
    (NoteList.AppendNew_wellFormed _ ⟨NoteList.consistent_new, List.nodup_nil⟩ _)).2.1
    ⟨[], [⟨"2", "y"⟩, ⟨"2", "y"⟩]⟩ (by decide)

/-! ### Set and slice of a reachable list -/

theorem NoteList.appendOne_keys (L : NoteList) (h : L.set.map Prod.fst = L.slice) (n : Note) :
    (L.appendOne n).set.map Prod.fst = (L.appendOne n).slice := by
  unfold NoteList.appendOne
  cases hc : L.Contains n
  · simp only [Bool.not_false, if_true]
    rw [NoteMap.keys_assign]
    simp only [NoteList.Contains] at hc
    simp [hc, h]
  · simpa using h

theorem NoteList.AppendNew_keys (L : NoteList) (h : L.set.map Prod.fst = L.slice)
    (xs : List Note) : (L.AppendNew xs).set.map Prod.fst = (L.AppendNew xs).slice := by
  unfold NoteList.AppendNew
  induction xs generalizing L with
  | nil => simpa using h
  | cons x xs ih => exact ih _ (NoteList.appendOne_keys L h x)

theorem runCalls_keys (calls : List NoteListCall) :
    (runCalls NewNoteList calls).set.map Prod.fst = (runCalls NewNoteList calls).slice := by
  rw [runCalls_eq_AppendNew]
  exact NoteList.AppendNew_keys _ rfl _

theorem runCalls_wellFormed (calls : List NoteListCall) :
    (runCalls NewNoteList calls).WellFormed := by
  rw [runCalls_eq_AppendNew]
  exact NoteList.AppendNew_wellFormed _ ⟨NoteList.consistent_new, List.nodup_nil⟩ _

/-- C17 (set and slice agree on every reachable list): for the list reached from
`NewNoteList()` by any sequence of `AppendNew` and `AppendNewFrom` calls, `Contains(n)`
holds exactly for the notes of `GetSlice()`, the keys of the set are the notes of the
slice without repetition so that `Len()` is the number of keys of the set, and `Get(i)`
for `0 <= i < Len()` is defined and is the element `i` of `GetSlice()`. -/
theorem set_slice_consistency (calls : List NoteListCall) :
    (∀ n, (runCalls NewNoteList calls).Contains n = true
      ↔ n ∈ (runCalls NewNoteList calls).GetSlice) ∧
    ((runCalls NewNoteList calls).set.map Prod.fst).Nodup ∧
    (runCalls NewNoteList calls).Len = ((runCalls NewNoteList calls).set.len : Int) ∧
    ∀ i : Int, 0 ≤ i → i < (runCalls NewNoteList calls).Len →
      ∃ n, (runCalls NewNoteList calls).Get i = some n ∧
        (runCalls NewNoteList calls).GetSlice.get? i.toNat = some n := by
  have hk := runCalls_keys calls
  have hw := runCalls_wellFormed calls
  refine ⟨hw.1, by rw [hk]; exact hw.2, ?_, ?_⟩
  · simp only [NoteList.Len, NoteMap.len]
    rw [← hk, List.length_map]
  · intro i h0 hi
    simp only [NoteList.Len] at hi
    have hlt : i.toNat < (runCalls NewNoteList calls).slice.length := by omega
    refine ⟨(runCalls NewNoteList calls).slice.get ⟨i.toNat, hlt⟩, ?_, ?_⟩
    · simp only [NoteList.Get, if_pos h0]
      exact List.get?_eq_get hlt
    · exact List.get?_eq_get hlt

theorem set_slice_consistency_witness :
    (runCalls NewNoteList [.appendNew [⟨"1", "x"⟩, ⟨"1", "x"⟩, ⟨"2", "y"⟩]]).Get 1
      = some ⟨"2", "y"⟩ := by
  obtain ⟨n, h1, h2⟩ :=
    (set_slice_consistency [.appendNew [⟨"1", "x"⟩, ⟨"1", "x"⟩, ⟨"2", "y"⟩]]).2.2.2 1
      (by decide) (by decide)
  have h3 : (runCalls NewNoteList
      [.appendNew [⟨"1", "x"⟩, ⟨"1", "x"⟩, ⟨"2", "y"⟩]]).GetSlice.get? (1 : Int).toNat
        = some ⟨"2", "y"⟩ := by decide
  rw [h3] at h2
  rw [h1, ← h2]

/-! ### Conversion of rows -/

theorem Row.at_absent (m : Row) (k : String) (h : ∀ p, p ∈ m → p.1 ≠ k) : m.at k = "" := by
  unfold Row.at
  induction m with
  | nil => rfl
  | cons p m ih =>
    obtain ⟨a, b⟩ := p
    have hne : (k == a) = false := by
      have := h (a, b) (List.mem_cons_self _ _)
      simpa using fun e => this e.symm
    rw [List.lookup_cons, hne]
    exact ih (fun p hp => h p (List.mem_cons_of_mem _ hp))

theorem Row.at_present (m : Row) (k v : String) : Row.at ((k, v) :: m) k = v := by
  simp [Row.at, List.lookup_cons]

section Orchestrator
variable {σ ε : Type}

/-- C14 (row-to-Note conversion): `toNoteSlice` returns one `Note` per row, in row order,
with `ID` the value of the column `ZUNIQUEIDENTIFIER` of the row and `Title` the value of
its column `ZTITLE`, the empty string standing for an absent column; `QueryNotes` on a
store that succeeds returns a nil error and the list whose slice is the first-occurrence
deduplication of those notes; on a store that fails it returns the empty `NoteList` and
the error of the store. -/
theorem row_to_note_conversion (Sprintf : Formatter) (db : BearDB σ ε) (query : String)
    (w : World σ) (maps : List Row) :
    (toNoteSlice maps).length = maps.length ∧
    (∀ i (h : i < maps.length),
      (toNoteSlice maps).get? i
        = some { ID := (maps.get ⟨i, h⟩).at "ZUNIQUEIDENTIFIER",
                 Title := (maps.get ⟨i, h⟩).at "ZTITLE" }) ∧
    (∀ (m : Row) (k : String), (∀ p, p ∈ m → p.1 ≠ k) → m.at k = "") ∧
    (∀ (m : Row) (k v : String), Row.at ((k, v) :: m) k = v) ∧
    (∀ s, db.lite.QueryStringMaps (db.limitQuery Sprintf query) w.store = ((maps, none), s) →
      (db.QueryNotes Sprintf query w).1.2 = none ∧
      (db.QueryNotes Sprintf query w).1.1 = NewNoteList.AppendNew (toNoteSlice maps) ∧
      (db.QueryNotes Sprintf query w).1.1.GetSlice = firstOccurrences (toNoteSlice maps)) ∧
    (∀ e s, db.lite.QueryStringMaps (db.limitQuery Sprintf query) w.store
        = ((maps, some e), s) →
      (db.QueryNotes Sprintf query w).1 = (NewNoteList, some (GoError.lower e)) ∧
      (db.QueryNotes Sprintf query w).1.1.GetSlice = []) := by
  refine ⟨?_, ?_, Row.at_absent, Row.at_present, ?_, ?_⟩
  · rw [toNoteSlice_eq_map, List.length_map]
  · intro i h
    rw [toNoteSlice_eq_map, List.get?_eq_getElem?, List.getElem?_map,
      List.getElem?_eq_getElem h]
    rfl
  · intro s hs
    rw [BearDB.QueryNotes_ok Sprintf db query w maps s hs]
    exact ⟨rfl, rfl, NoteList.AppendNew_new_slice _⟩
  · intro e s hs
    rw [BearDB.QueryNotes_err Sprintf db query w maps e s hs]
    exact ⟨rfl, rfl⟩

theorem row_to_note_conversion_witness :
    (scriptedDB [([noteRow "1" "a", [("ZTITLE", "b")], noteRow "1" "a"], none)] []
      |>.QueryNotes modelSprintf recentQuery world0).1.1.GetSlice
      = [⟨"1", "a"⟩, ⟨"", "b"⟩] := by
  have h := ((row_to_note_conversion modelSprintf
    (scriptedDB [([noteRow "1" "a", [("ZTITLE", "b")], noteRow "1" "a"], none)] [])
    recentQuery world0 [noteRow "1" "a", [("ZTITLE", "b")], noteRow "1" "a"]).2.2.2.2.1
      1 rfl).2.2
  rw [h]
  decide

end Orchestrator

/-! ### Propagation of errors -/

section Orchestrator
variable {σ ε : Type}

theorem LiteDB.replayMaps_append (lite : LiteDB σ ε) (a b : List String) (s : σ) :
    lite.replayMaps (a ++ b) s
      = ((lite.replayMaps a s).1 ++ (lite.replayMaps b (lite.replayMaps a s).2).1,
          (lite.replayMaps b (lite.replayMaps a s).2).2) := by
  induction a generalizing s with
  | nil => simp [LiteDB.replayMaps]
  | cons q a ih => simp [LiteDB.replayMaps, ih]

theorem firstError_replicate (k : Nat) (o : Option ε) :
    firstError (List.replicate k none ++ [o]) = o := by
  induction k with
  | zero => cases o <;> rfl
  | succ k ih => simpa [List.replicate_succ, firstError] using ih

theorem QueryChain.propagate (replay : List String → σ → List (Option ε) × σ)
    (w w' : World σ) (err : Option (GoError ε)) (h : QueryChain replay w w' err) :
    ErrorsPropagate replay w w' err := by
  obtain ⟨qs, k, o, hlog, hst, houts, herr⟩ := h
  refine ⟨qs, hlog, hst, ?_, ?_, ?_⟩
  · rw [houts, herr]
    constructor
    · intro ho
      exact ⟨o, by simp, by simpa using ho⟩
    · rintro ⟨o', hm, hs⟩
      rcases List.mem_append.1 hm with hm | hm
      · rw [List.eq_of_mem_replicate hm] at hs
        simp at hs
      · rw [List.mem_singleton.1 hm] at hs
        simpa using hs
  · rw [houts, firstError_replicate, herr]
  · rw [houts]
    intro i hi
    have hik : i < k := by simpa using hi
    rw [List.get?_eq_getElem?, List.getElem?_append_left (by simpa using hik)]
    simp [hik]

theorem BearDB.QueryNotes_store (Sprintf : Formatter) (db : BearDB σ ε) (query : String)
    (w : World σ) :
    (db.QueryNotes Sprintf query w).2.store
      = (db.lite.QueryStringMaps (db.limitQuery Sprintf query) w.store).2 := by
  unfold BearDB.QueryNotes
  simp only []
  split <;> rfl

theorem BearDB.QueryNotes_error (Sprintf : Formatter) (db : BearDB σ ε) (query : String)
    (w : World σ) :
    (db.QueryNotes Sprintf query w).1.2
      = (db.lite.QueryStringMaps (db.limitQuery Sprintf query) w.store).1.2.map
          GoError.lower := by
  unfold BearDB.QueryNotes
  simp only []
  split <;> rfl

theorem BearDB.QueryNotes_chain (Sprintf : Formatter) (db : BearDB σ ε) (query : String)
    (w : World σ) :
    QueryChain db.lite.replayMaps w (db.QueryNotes Sprintf query w).2
      (db.QueryNotes Sprintf query w).1.2 :=
  ⟨[db.limitQuery Sprintf query], 0, _, BearDB.QueryNotes_log Sprintf db query w,
    BearDB.QueryNotes_store Sprintf db query w, rfl, BearDB.QueryNotes_error Sprintf db query w⟩

/-- Two chains in a row, the first without error, make one chain. -/
theorem QueryChain.append (lite : LiteDB σ ε) (w w₁ w₂ : World σ) (err : Option (GoError ε))
    (h1 : QueryChain lite.replayMaps w w₁ none) (h2 : QueryChain lite.replayMaps w₁ w₂ err) :
    QueryChain lite.replayMaps w w₂ err := by
  obtain ⟨qs1, k1, o1, hlog1, hst1, houts1, herr1⟩ := h1
  obtain ⟨qs2, k2, o2, hlog2, hst2, houts2, herr2⟩ := h2
  have ho1 : o1 = none := by
    cases o1 with
    | none => rfl
    | some e => simp at herr1
  subst ho1
  refine ⟨qs1 ++ qs2, k1 + 1 + k2, o2, ?_, ?_, ?_, herr2⟩
  · rw [hlog2, hlog1, List.append_assoc]
  · rw [LiteDB.replayMaps_append, ← hst1]
    exact hst2
  · rw [LiteDB.replayMaps_append, ← hst1, houts1, houts2]
    simp only [List.replicate_add, List.append_assoc, List.replicate_one]

theorem BearDB.gapQuery_chain (Sprintf : Formatter) (db : BearDB σ ε) (T F : String)
    (w : World σ) :
    QueryChain db.lite.replayMaps w (db.gapQuery Sprintf T F w).2
      (db.gapQuery Sprintf T F w).1.2 := by
  have c1 := BearDB.QueryNotes_chain Sprintf db (Sprintf T [.str F]) w
  by_cases h1 : (db.QueryNotes Sprintf (Sprintf T [.str F]) w).1.2.isSome = true
  · rw [BearDB.gapQuery_first_err Sprintf db T F w h1]
    exact c1
  · have h1' : (db.QueryNotes Sprintf (Sprintf T [.str F]) w).1.2 = none := by simpa using h1
    by_cases hF : (Split F " ").length > 1
    · have c2 := BearDB.QueryNotes_chain Sprintf db
        (Sprintf T [.str (Join (Split F " ") "% %")])
        (db.QueryNotes Sprintf (Sprintf T [.str F]) w).2
      rw [h1'] at c1
      have c := QueryChain.append db.lite _ _ _ _ c1 c2
      rw [BearDB.gapQuery_multi Sprintf db T F w hF h1']
      split
      · exact c
      · rename_i hn
        have hn' : (db.QueryNotes Sprintf (Sprintf T [.str (Join (Split F " ") "% %")])
            (db.QueryNotes Sprintf (Sprintf T [.str F]) w).2).1.2 = none := by simpa using hn
        rw [hn'] at c
        exact c
    · rw [BearDB.gapQuery_single Sprintf db T F w hF]
      exact c1

theorem BearDB.SearchNotes_chain (Sprintf : Formatter) (db : BearDB σ ε) (text : String)
    (w : World σ) :
    QueryChain db.lite.replayMaps w (db.SearchNotes Sprintf text w).2
      (db.SearchNotes Sprintf text w).1.2 := by
  have c1 := BearDB.gapQuery_chain Sprintf db notesByTitleQuery text w
  have c2 := BearDB.gapQuery_chain Sprintf db notesByTextQuery text
    (db.gapQuery Sprintf notesByTitleQuery text w).2
  unfold BearDB.SearchNotes BearDB.SearchNotesByTitle BearDB.SearchNotesByText
  simp only []
  split
  · exact c1
  · rename_i hn
    have hn' : (db.gapQuery Sprintf notesByTitleQuery text w).1.2 = none := by simpa using hn
    rw [hn'] at c1
    have c := QueryChain.append db.lite _ _ _ _ c1 c2
    split
    · exact c
    · exact c

theorem BearDB.SearchTags_chain (Sprintf : Formatter) (db : BearDB σ ε) (s : String)
    (w : World σ) :
    QueryChain db.lite.replayStrings w (db.SearchTags Sprintf s w).2
      (db.SearchTags Sprintf s w).1.2 :=
  ⟨[db.limitQuery Sprintf (Sprintf tagQuery [.str s])], 0, _, rfl, rfl, rfl, rfl⟩

/-- C13 (error propagation and abort): each of `SearchTags`, `GetRecent`,
`SearchNotesByTitle`, `SearchNotesByText` and `SearchNotes` returns a non-nil error exactly
when one of the store queries it made failed; the error is that of the first failing
query; and a failing query is the last query made, so that a failed exact query
suppresses the word-gap query and a failed title search suppresses the text search. -/
theorem error_propagation (Sprintf : Formatter) (db : BearDB σ ε) (text : String)
    (w : World σ) :
    ErrorsPropagate db.lite.replayStrings w (db.SearchTags Sprintf text w).2
        (db.SearchTags Sprintf text w).1.2 ∧
      ErrorsPropagate db.lite.replayMaps w (db.GetRecent Sprintf w).2
        (db.GetRecent Sprintf w).1.2 ∧
      ErrorsPropagate db.lite.replayMaps w (db.SearchNotesByTitle Sprintf text w).2
        (db.SearchNotesByTitle Sprintf text w).1.2 ∧
      ErrorsPropagate db.lite.replayMaps w (db.SearchNotesByText Sprintf text w).2
        (db.SearchNotesByText Sprintf text w).1.2 ∧
      ErrorsPropagate db.lite.replayMaps w (db.SearchNotes Sprintf text w).2
        (db.SearchNotes Sprintf text w).1.2 :=
  ⟨QueryChain.propagate _ _ _ _ (BearDB.SearchTags_chain Sprintf db text w),
    QueryChain.propagate _ _ _ _ (BearDB.QueryNotes_chain Sprintf db recentQuery w),
    QueryChain.propagate _ _ _ _ (BearDB.gapQuery_chain Sprintf db notesByTitleQuery text w),
    QueryChain.propagate _ _ _ _ (BearDB.gapQuery_chain Sprintf db notesByTextQuery text w),
    QueryChain.propagate _ _ _ _ (BearDB.SearchNotes_chain Sprintf db text w)⟩

end Orchestrator

/-! ### The word-gap pattern -/

theorem Join_cons_char (c : Char) (w : List Char) (t : List String) (sep : String) :
    (Join (String.mk (c :: w) :: t) sep).data = c :: (Join (String.mk w :: t) sep).data := by
  cases t with
  | nil => rfl
  | cons b rest => simp [Join, String.data_append]

theorem Join_splitChars_space (s : List Char) :
    (Join ((splitChars [' '] 0 s).map String.mk) "% %").data = replaceSpaceChars s := by
  induction s with
  | nil => rfl
  | cons c s ih =>
    have hlen := splitChars_single_length ' ' s
    unfold splitChars
    cases hs : splitChars [' '] 0 s with
    | nil => rw [hs] at hlen; simp at hlen
    | cons w ws =>
      rw [hs] at ih
      by_cases hc : c = ' '
      · subst hc
        simp only [List.isPrefixOf, beq_self_eq_true, Bool.and_self, if_true, List.length_cons,
          List.length_nil, Nat.zero_add, Nat.sub_self, hs, List.map_cons, Join,
          replaceSpaceChars, String.data_append]
        rw [← ih]
        rfl
      · have hne : ((' ' : Char) == c) = false := by simpa using fun e => hc e.symm
        simp only [List.isPrefixOf, hne, Bool.false_and, Bool.false_eq_true, if_false,
          List.map_cons, replaceSpaceChars, if_neg hc]
        rw [Join_cons_char, ← ih]
        rfl

theorem Join_Split_space (F : String) : Join (Split F " ") "% %" = replaceSpaces F := by
  apply String.ext
  have h : (" " : String).data = [' '] := rfl
  simp only [Split, h, replaceSpaces]
  rw [if_neg (by simp)]
  exact Join_splitChars_space F.data

section Orchestrator
variable {σ ε : Type}

/-- C16, as stated, fails: the fill `foo ` has a space, yet on a store whose first query
fails `gapQuery` makes that one query only and no second query with the word-gap
pattern. -/
theorem word_gap_pattern_counterexample :
    ' ' ∈ ("foo " : String).data ∧
      (scriptedDB [([], some "locked")] []
        |>.gapQuery modelSprintf notesByTitleQuery "foo " world0).2.log
        = [(scriptedDB [([], some "locked")] []).limitQuery modelSprintf
            (modelSprintf notesByTitleQuery [.str "foo "])] ∧
      (scriptedDB [([], some "locked")] []
        |>.gapQuery modelSprintf notesByTitleQuery "foo " world0).2.log.length = 1 := by
  refine ⟨by decide, rfl, rfl⟩

/-- C16, amended (the word-gap pattern is a per-space replacement): for every fill `F`,
`strings.Join(strings.Split(F, " "), "% %")` is `F` with every space replaced by `% %`;
empty words are kept, the number of words being the number of spaces plus one (`foo `
gives the pattern `foo% %`, `a  b` gives `a% %% %b`).  When the first query succeeds, the
second query, the template filled with that pattern, is made if and only if `F` has a
space; when the first query fails no second query is made; the empty fill makes exactly
one query. -/
theorem word_gap_pattern (Sprintf : Formatter) (db : BearDB σ ε) (T F : String)
    (w : World σ) :
    Join (Split F " ") "% %" = replaceSpaces F ∧
    (Split F " ").length = F.data.count ' ' + 1 ∧
    (Split "foo " " " = ["foo", ""] ∧ Join (Split "foo " " ") "% %" = "foo% %" ∧
      Join (Split "a  b" " ") "% %" = "a% %% %b") ∧
    ((db.QueryNotes Sprintf (Sprintf T [.str F]) w).1.2 = none →
      (' ' ∈ F.data →
        (db.gapQuery Sprintf T F w).2.log
          = w.log ++ [db.limitQuery Sprintf (Sprintf T [.str F]),
              db.limitQuery Sprintf (Sprintf T [.str (replaceSpaces F)])]) ∧
      (' ' ∉ F.data →
        (db.gapQuery Sprintf T F w).2.log
          = w.log ++ [db.limitQuery Sprintf (Sprintf T [.str F])]) ∧
      ((db.gapQuery Sprintf T F w).2.log.length = w.log.length + 2 ↔ ' ' ∈ F.data)) ∧
    ((db.QueryNotes Sprintf (Sprintf T [.str F]) w).1.2.isSome = true →
      (db.gapQuery Sprintf T F w).2.log
        = w.log ++ [db.limitQuery Sprintf (Sprintf T [.str F])]) ∧
    (db.gapQuery Sprintf T "" w).2.log
      = w.log ++ [db.limitQuery Sprintf (Sprintf T [.str ""])] := by
  have hmulti : (db.QueryNotes Sprintf (Sprintf T [.str F]) w).1.2 = none → ' ' ∈ F.data →
      (db.gapQuery Sprintf T F w).2.log
        = w.log ++ [db.limitQuery Sprintf (Sprintf T [.str F]),
            db.limitQuery Sprintf (Sprintf T [.str (replaceSpaces F)])] := by
    intro h1 hF
    have hs : (Split F " ").length > 1 := (Split_space_multi_iff F).2 hF
    rw [BearDB.gapQuery_multi Sprintf db T F w hs h1, Join_Split_space]
    split
    · simp only []
      rw [BearDB.QueryNotes_log, BearDB.QueryNotes_log]
      simp
    · simp only []
      rw [BearDB.QueryNotes_log, BearDB.QueryNotes_log]
      simp
  have hsingle : ∀ G : String, ' ' ∉ G.data →
      (db.gapQuery Sprintf T G w).2.log
        = w.log ++ [db.limitQuery Sprintf (Sprintf T [.str G])] := by
    intro G hG
    have hs : ¬ (Split G " ").length > 1 := fun h => hG ((Split_space_multi_iff G).1 h)
    rw [BearDB.gapQuery_single Sprintf db T G w hs, BearDB.QueryNotes_log]
  refine ⟨Join_Split_space F, Split_space_length F, ⟨by decide, by decide, by decide⟩, ?_, ?_,
    hsingle "" (by decide)⟩
  · intro h1
    refine ⟨hmulti h1, hsingle F, ?_⟩
    constructor
    · intro hl
      by_contra hF
      rw [hsingle F hF] at hl
      simp at hl
    · intro hF
      rw [hmulti h1 hF]
      simp
  · intro h1
    rw [BearDB.gapQuery_first_err Sprintf db T F w h1, BearDB.QueryNotes_log]

theorem word_gap_pattern_witness :
    (scriptedDB [([], none), ([], none)] []
      |>.gapQuery modelSprintf notesByTitleQuery "foo " world0).2.log.length = 2 := by
  have h := ((word_gap_pattern modelSprintf (scriptedDB [([], none), ([], none)] [])
    notesByTitleQuery "foo " world0).2.2.2.1 rfl).1 (by decide)
  rw [h]
  rfl

end Orchestrator

/-! ### Size of the results -/

theorem NoteList.appendOne_length_le (L : NoteList) (n : Note) :
    (L.appendOne n).slice.length ≤ L.slice.length + 1 := by
  unfold NoteList.appendOne
  split <;> simp

theorem NoteList.AppendNew_length_le (L : NoteList) (xs : List Note) :
    (L.AppendNew xs).slice.length ≤ L.slice.length + xs.length := by
  unfold NoteList.AppendNew
  induction xs generalizing L with
  | nil => simp
  | cons x xs ih =>
    have h1 := ih (L.appendOne x)
    have h2 := NoteList.appendOne_length_le L x
    simp only [List.foldl_cons, List.length_cons]
    omega

section Orchestrator
variable {σ ε : Type}

theorem BearDB.QueryNotes_length_le (Sprintf : Formatter) (db : BearDB σ ε) (query : String)
    (w : World σ) :
    (db.QueryNotes Sprintf query w).1.1.slice.length
      ≤ (db.lite.QueryStringMaps (db.limitQuery Sprintf query) w.store).1.1.length := by
  unfold BearDB.QueryNotes
  simp only []
  split
  · simp [NewNoteList]
  · have h := NoteList.AppendNew_length_le NewNoteList
      (toNoteSlice (db.liteQueryStringMaps (db.limitQuery Sprintf query) w).1.1)
    rw [toNoteSlice_eq_map, List.length_map] at h
    rw [toNoteSlice_eq_map]
    simpa [NewNoteList, BearDB.liteQueryStringMaps] using h

theorem BearDB.gapQuery_length_le (Sprintf : Formatter) (db : BearDB σ ε) (T F : String)
    (w : World σ) (limit : Nat)
    (hcap : ∀ q s, (db.lite.QueryStringMaps q s).1.1.length ≤ limit) :
    (db.gapQuery Sprintf T F w).1.1.slice.length ≤ 2 * limit := by
  have h1 := (BearDB.QueryNotes_length_le Sprintf db (Sprintf T [.str F]) w).trans (hcap _ _)
  by_cases he : (db.QueryNotes Sprintf (Sprintf T [.str F]) w).1.2.isSome = true
  · rw [BearDB.gapQuery_first_err Sprintf db T F w he]
    omega
  · by_cases hF : (Split F " ").length > 1
    · rw [BearDB.gapQuery_multi Sprintf db T F w hF (by simpa using he)]
      have h2 := (BearDB.QueryNotes_length_le Sprintf db
        (Sprintf T [.str (Join (Split F " ") "% %")])
        (db.QueryNotes Sprintf (Sprintf T [.str F]) w).2).trans (hcap _ _)
      split
      · simp only []
        omega
      · have h3 := NoteList.AppendNew_length_le (db.QueryNotes Sprintf (Sprintf T [.str F]) w).1.1
          (db.QueryNotes Sprintf (Sprintf T [.str (Join (Split F " ") "% %")])
            (db.QueryNotes Sprintf (Sprintf T [.str F]) w).2).1.1.slice
        simp only [NoteList.AppendNewFrom]
        omega
    · rw [BearDB.gapQuery_single Sprintf db T F w hF]
      omega

theorem BearDB.SearchNotes_length_le (Sprintf : Formatter) (db : BearDB σ ε) (text : String)
    (w : World σ) (limit : Nat)
    (hcap : ∀ q s, (db.lite.QueryStringMaps q s).1.1.length ≤ limit) :
    (db.SearchNotes Sprintf text w).1.1.slice.length ≤ 4 * limit := by
  have h1 := BearDB.gapQuery_length_le Sprintf db notesByTitleQuery text w limit hcap
  have h2 := BearDB.gapQuery_length_le Sprintf db notesByTextQuery text
    (db.gapQuery Sprintf notesByTitleQuery text w).2 limit hcap
  unfold BearDB.SearchNotes BearDB.SearchNotesByTitle BearDB.SearchNotesByText
  simp only []
  split
  · simp only []
    omega
  · split
    · simp only []
      omega
    · have h3 := NoteList.AppendNew_length_le (db.gapQuery Sprintf notesByTitleQuery text w).1.1
        (db.gapQuery Sprintf notesByTextQuery text
          (db.gapQuery Sprintf notesByTitleQuery text w).2).1.1.slice
      simp only [NoteList.AppendNewFrom]
      omega

set_option maxRecDepth 100000 in
set_option maxHeartbeats 4000000 in
/-- C18 (result-size bound): when the store answers every query with at most `limit`
rows, `GetRecent` returns at most `limit` notes, `SearchNotesByTitle` and
`SearchNotesByText` at most `2 * limit`, and `SearchNotes` at most `4 * limit`.  The
returned list is not itself capped at `limit`: on the store `freshLite`, which keeps to the
default cap of 25 rows a query, the search `a b` returns 50 notes by title and 100 notes
in all. -/
theorem result_size_bound (Sprintf : Formatter) (db : BearDB σ ε) (text : String)
    (w : World σ)
    (hcap : ∀ q s, ((db.lite.QueryStringMaps q s).1.1.length : Int) ≤ db.limit) :
    ((db.GetRecent Sprintf w).1.1.Len ≤ db.limit ∧
      (db.SearchNotesByTitle Sprintf text w).1.1.Len ≤ 2 * db.limit ∧
      (db.SearchNotesByText Sprintf text w).1.1.Len ≤ 2 * db.limit ∧
      (db.SearchNotes Sprintf text w).1.1.Len ≤ 4 * db.limit) ∧
    ((∀ q s, ((freshDB.lite.QueryStringMaps q s).1.1.length : Int) ≤ freshDB.limit) ∧
      freshDB.limit = 25 ∧
      (freshDB.SearchNotesByTitle modelSprintf "a b" world0).1.1.Len = 50 ∧
      (freshDB.SearchNotes modelSprintf "a b" world0).1.1.Len = 100) := by
  have h0 : 0 ≤ db.limit := le_trans (Int.ofNat_nonneg _) (hcap "" w.store)
  obtain ⟨limit, hl⟩ := Int.eq_ofNat_of_zero_le h0
  have hcap' : ∀ q s, (db.lite.QueryStringMaps q s).1.1.length ≤ limit := by
    intro q s
    have := hcap q s
    rw [hl] at this
    exact_mod_cast this
  have g1 := (BearDB.QueryNotes_length_le Sprintf db recentQuery w).trans (hcap' _ _)
  have g2 := BearDB.gapQuery_length_le Sprintf db notesByTitleQuery text w limit hcap'
  have g3 := BearDB.gapQuery_length_le Sprintf db notesByTextQuery text w limit hcap'
  have g4 := BearDB.SearchNotes_length_le Sprintf db text w limit hcap'
  refine ⟨⟨?_, ?_, ?_, ?_⟩, ?_, rfl, by decide, by decide⟩
  · simp only [NoteList.Len, BearDB.GetRecent, hl]
    exact_mod_cast g1
  · simp only [NoteList.Len, BearDB.SearchNotesByTitle, hl]
    exact_mod_cast g2
  · simp only [NoteList.Len, BearDB.SearchNotesByText, hl]
    exact_mod_cast g3
  · simp only [NoteList.Len, hl]
    exact_mod_cast g4
  · intro q s
    simp [freshDB, NewBearDB, freshLite]

theorem result_size_bound_witness :
    (freshDB.SearchNotes modelSprintf "a b" world0).1.1.Len ≤ 4 * freshDB.limit :=
  (result_size_bound modelSprintf freshDB "a b" world0
    (by intro q s; simp [freshDB, NewBearDB, freshLite])).1.2.2.2

end Orchestrator

/-! ### The conversions of the adapter -/

theorem set_append_length (a b : List Nat) (x y : Nat) :
    (a ++ x :: b).set a.length y = a ++ y :: b := by
  induction a with
  | nil => rfl
  | cons c a ih => simp [ih]

theorem B2S.loop_eq (rest done : List Nat) :
    B2S.loop done.length rest (done ++ List.replicate rest.length 0)
      = done ++ rest.map (fun v => v % 256) := by
  induction rest generalizing done with
  | nil => simp [B2S.loop]
  | cons v rest ih =>
    simp only [B2S.loop, List.length_cons, List.replicate_succ, set_append_length, List.map_cons]
    have := ih (done ++ [v % 256])
    simpa using this

theorem B2S_eq_map (bs : List Nat) : B2S bs = bs.map (fun v => v % 256) := by
  have := B2S.loop_eq bs []
  simpa [B2S] using this

theorem B2S_bytes (bs : List Nat) (h : ∀ b, b ∈ bs → b < 256) : B2S bs = bs := by
  rw [B2S_eq_map]
  conv_rhs => rw [← List.map_id bs]
  apply List.map_congr_left
  intro b hb
  exact Nat.mod_eq_of_lt (h b hb)

theorem rowString_single (row : RawRow) (h : SingleColumn row) :
    rowString row = some (columnBytes row) := by
  rcases h with rfl | ⟨k, bs, rfl, hb⟩
  · rfl
  · simp [rowString, RawValue.asBytes, columnBytes, B2S_bytes bs hb]

theorem foldl_rowString_single (rows : List RawRow) (h : ∀ row, row ∈ rows → SingleColumn row)
    (acc : List (List Nat)) :
    rows.foldl
        (fun acc iMap =>
          match acc, rowString iMap with
          | some sResults, some s => some (sResults ++ [s])
          | _, _ => none)
        (some acc)
      = some (acc ++ rows.map columnBytes) := by
  induction rows generalizing acc with
  | nil => simp
  | cons row rows ih =>
    rw [List.foldl_cons, rowString_single row (h row (List.mem_cons_self _ _))]
    simp only []
    rw [ih (fun r hr => h r (List.mem_cons_of_mem _ hr))]
    simp

section Orchestrator
variable {σ ε : Type}

/-- C15 (single-column conversion): `B2S` keeps the length and, for bytes, every element;
when `Query` succeeds with rows that each have one column holding bytes, or no column,
`QueryStrings` returns for each row, in row order, the string whose bytes are those of
the column, the empty string for a row without column, and a nil error; when `Query`
fails it returns no string and that error; and `SearchTags` returns the list and the
error of `QueryStrings` as they are. -/
theorem single_column_conversion (Sprintf : Formatter) (db : BearDB σ ε) (s : String)
    (w : World σ) (lite : RawLiteDB σ ε) (q : String) (st : σ) :
    (∀ bs, (B2S bs).length = bs.length) ∧
    (∀ bs, (∀ b, b ∈ bs → b < 256) → B2S bs = bs) ∧
    (∀ rows st', lite.Query q st = ((rows, none), st') →
      (∀ row, row ∈ rows → SingleColumn row) →
      lite.QueryStrings q st = some ((rows.map columnBytes, none), st')) ∧
    (columnBytes [] = [] ∧ ∀ k bs, columnBytes [(k, RawValue.bytes bs)] = bs) ∧
    (∀ rows e st', lite.Query q st = ((rows, some e), st') →
      lite.QueryStrings q st = some (([], some e), st')) ∧
    (db.SearchTags Sprintf s w).1
      = ((db.lite.QueryStrings (db.limitQuery Sprintf (Sprintf tagQuery [.str s]))
            w.store).1.1,
          (db.lite.QueryStrings (db.limitQuery Sprintf (Sprintf tagQuery [.str s]))
            w.store).1.2.map GoError.lower) := by
  refine ⟨?_, B2S_bytes, ?_, ⟨rfl, fun _ _ => rfl⟩, ?_, rfl⟩
  · intro bs
    rw [B2S_eq_map, List.length_map]
  · intro rows st' hq hrows
    unfold RawLiteDB.QueryStrings
    simp only [hq, Option.isSome_none, Bool.false_eq_true, if_false]
    rw [foldl_rowString_single rows hrows []]
    simp
  · intro rows e st' hq
    unfold RawLiteDB.QueryStrings
    simp [hq]

theorem single_column_conversion_witness :
    (RawLiteDB.QueryStrings
        ({ Query := fun _ n =>
            (([[("ZTITLE", RawValue.bytes [119, 111, 114, 107])], [],
                [("ZTITLE", RawValue.bytes [195, 169])]], none), n + 1) } :
          RawLiteDB Nat String)
        "q" 0)
      = some (([[119, 111, 114, 107], [], [195, 169]], none), 1) :=
  (single_column_conversion modelSprintf (scriptedDB [] []) "wor" world0
    ({ Query := fun _ n =>
        (([[("ZTITLE", RawValue.bytes [119, 111, 114, 107])], [],
            [("ZTITLE", RawValue.bytes [195, 169])]], none), n + 1) } : RawLiteDB Nat String)
    "q" 0).2.2.1 _ _ rfl (by
      intro row hrow
      simp only [List.mem_cons, List.mem_singleton, List.not_mem_nil, or_false] at hrow
      rcases hrow with rfl | rfl | rfl
      · exact Or.inr ⟨_, _, rfl, by decide⟩
      · exact Or.inl rfl
      · exact Or.inr ⟨_, _, rfl, by decide⟩)

end Orchestrator

/-! ### The reading of the queries -/

theorem digitChar_ne_quote (k : Nat) : Nat.digitChar k ≠ '\'' := by
  match k with
  | 0 | 1 | 2 | 3 | 4 | 5 | 6 | 7 | 8 | 9 | 10 | 11 | 12 | 13 | 14 | 15 => decide
  | k + 16 =>
    have h : Nat.digitChar (k + 16) = '*' := by
      simp [Nat.digitChar]
    rw [h]
    decide

theorem toDigitsCore_no_quote (fuel n : Nat) (ds : List Char) (h : '\'' ∉ ds) :
    '\'' ∉ Nat.toDigitsCore 10 fuel n ds := by
  induction fuel generalizing n ds with
  | zero => simpa [Nat.toDigitsCore] using h
  | succ fuel ih =>
    have hd : '\'' ∉ Nat.digitChar (n % 10) :: ds := by
      intro hm
      rcases List.mem_cons.1 hm with e | e
      · exact digitChar_ne_quote _ e.symm
      · exact h e
    unfold Nat.toDigitsCore
    simp only []
    split
    · exact hd
    · exact ih _ _ hd

theorem toString_nat_no_quote (n : Nat) : '\'' ∉ (toString n).data := by
  show '\'' ∉ (Nat.repr n).data
  unfold Nat.repr Nat.toDigits
  exact toDigitsCore_no_quote _ _ _ (by simp)

theorem toString_int_no_quote (i : Int) : '\'' ∉ (toString i).data := by
  cases i with
  | ofNat n => exact toString_nat_no_quote n
  | negSucc n =>
    show '\'' ∉ ("-" ++ toString (Nat.succ n)).data
    rw [String.data_append]
    intro hm
    rcases List.mem_append.1 hm with e | e
    · revert e; decide
    · exact toString_nat_no_quote _ e

/-- Reading a text without quote inside a string literal: all of it is content. -/
theorem lex_inStr (u : List Char) (hu : '\'' ∉ u) (toks : List Token) (acc : List Char) :
    u.foldl lexStep { toks := toks, mode := .inStr acc }
      = { toks := toks, mode := .inStr (acc ++ u) } := by
  induction u generalizing acc with
  | nil => simp
  | cons c u ih =>
    have hc : c ≠ '\'' := fun e => hu (by simp [e])
    have hu' : '\'' ∉ u := fun e => hu (List.mem_cons_of_mem _ e)
    rw [List.foldl_cons]
    have : lexStep { toks := toks, mode := .inStr acc } c
        = { toks := toks, mode := .inStr (acc ++ [c]) } := by
      simp [lexStep, hc]
    rw [this, ih hu']
    simp

/-- A state outside string literals. -/
theorem lexBlank_outside (toks : List Token) (c : Char) (hc : c ≠ '\'') :
    ∃ more, (lexBlank toks c).toks = toks ++ more ∧
      ((lexBlank toks c).mode = .blank ∨ ∃ acc, (lexBlank toks c).mode = .inWord acc) := by
  unfold lexBlank
  rw [if_neg hc]
  split
  · exact ⟨[], by simp, Or.inr ⟨_, rfl⟩⟩
  · split
    · exact ⟨[], by simp, Or.inl rfl⟩
    · exact ⟨_, rfl, Or.inl rfl⟩

theorem lexStep_outside (st : LexState) (c : Char) (hc : c ≠ '\'')
    (hm : st.mode = .blank ∨ ∃ acc, st.mode = .inWord acc) :
    ∃ more, (lexStep st c).toks = st.toks ++ more ∧
      ((lexStep st c).mode = .blank ∨ ∃ acc, (lexStep st c).mode = .inWord acc) := by
  rcases hm with hm | ⟨acc, hm⟩
  · unfold lexStep
    rw [hm]
    exact lexBlank_outside st.toks c hc
  · unfold lexStep
    rw [hm]
    simp only []
    split
    · exact ⟨[], by simp, Or.inr ⟨_, rfl⟩⟩
    · obtain ⟨more, h1, h2⟩ := lexBlank_outside (st.toks ++ [.word acc]) c hc
      exact ⟨[.word acc] ++ more, by rw [h1, List.append_assoc], h2⟩

/-- Reading a text without quote outside string literals only adds tokens, and the text
can end there. -/
theorem lex_outside (d : List Char) (hd : '\'' ∉ d) (st : LexState)
    (hm : st.mode = .blank ∨ ∃ acc, st.mode = .inWord acc) :
    ∃ more, lexEnd (d.foldl lexStep st) = some (st.toks ++ more) := by
  induction d generalizing st with
  | nil =>
    rcases hm with hm | ⟨acc, hm⟩
    · exact ⟨[], by simp [lexEnd, hm]⟩
    · exact ⟨[.word acc], by simp [lexEnd, hm]⟩
  | cons c d ih =>
    have hc : c ≠ '\'' := fun e => hd (by simp [e])
    have hd' : '\'' ∉ d := fun e => hd (List.mem_cons_of_mem _ e)
    obtain ⟨more, h1, h2⟩ := lexStep_outside st c hc hm
    obtain ⟨more', h3⟩ := ih hd' (lexStep st c) h2
    exact ⟨more ++ more', by rw [List.foldl_cons, h3, h1, List.append_assoc]⟩

set_option maxRecDepth 100000 in
theorem lex_title_head :
    (notesSelect ++ "lower(ZTITLE) LIKE lower('").data.foldl lexStep
        { toks := [], mode := .blank }
      = { toks := notesHeadTokens "ZTITLE", mode := .inStr [] } := by
  decide

set_option maxRecDepth 100000 in
theorem lex_text_head :
    (notesSelect ++ "lower(ZTEXT) LIKE lower('").data.foldl lexStep
        { toks := [], mode := .blank }
      = { toks := notesHeadTokens "ZTEXT", mode := .inStr [] } := by
  decide

set_option maxRecDepth 100000 in
theorem lex_tail (toks : List Token) (acc : List Char) :
    ("')" ++ notesOrder ++ " LIMIT ").data.foldl lexStep { toks := toks, mode := .inStr acc }
      = { toks := toks ++ .str acc :: notesTailTokens, mode := .blank } := by
  have h : ("')" ++ notesOrder ++ " LIMIT ").data
      = "')\n\tORDER BY \n\t\tZMODIFICATIONDATE DESC \n LIMIT ".data := by decide
  rw [h]
  simp [List.foldl, lexStep, lexBlank, isWordChar, notesTailTokens]

theorem lex_pattern (head : List Char) (T : List Token) (u d : List Char)
    (hP : head.foldl lexStep { toks := [], mode := .blank } = { toks := T, mode := .inStr [] })
    (hu : '\'' ∉ u) (hd : '\'' ∉ d) :
    ∃ more, lexEnd ((head ++ (u ++ (("')" ++ notesOrder ++ " LIMIT ").data ++ d))).foldl lexStep
        { toks := [], mode := .blank })
      = some (T ++ .str u :: notesTailTokens ++ more) := by
  rw [List.foldl_append, hP, List.foldl_append, lex_inStr u hu, List.foldl_append, lex_tail]
  obtain ⟨more, h⟩ := lex_outside d hd
    { toks := T ++ .str ([] ++ u) :: notesTailTokens, mode := .blank } (Or.inl rfl)
  exact ⟨more, by simpa using h⟩

/-- The condition of a note query whose pattern is one string literal. -/
theorem whereTokens_notes (column : String) (hc : column = "ZTITLE" ∨ column = "ZTEXT")
    (u : List Char) (more : List Token) :
    whereTokens (notesHeadTokens column ++ .str u :: notesTailTokens ++ more)
      = some [.word "ZARCHIVED".data, .sym '=', .word "0".data, .word "AND".data,
          .word "ZTRASHED".data, .sym '=', .word "0".data, .word "AND".data,
          .word "lower".data, .sym '(', .word column.data, .sym ')', .word "LIKE".data,
          .word "lower".data, .sym '(', .str u, .sym ')'] := by
  rcases hc with rfl | rfl <;> rfl

theorem sqlEq_int (a b : Int) : sqlEq (.int a) (.int b) = decide (a = b) := by
  simp [sqlEq]

theorem conditionValue_notes (column : String) (hc : column = "ZTITLE" ∨ column = "ZTEXT")
    (u : List Char) (row : NoteRecord) :
    ∃ b, conditionValue row
        [.word "ZARCHIVED".data, .sym '=', .word "0".data, .word "AND".data,
          .word "ZTRASHED".data, .sym '=', .word "0".data, .word "AND".data,
          .word "lower".data, .sym '(', .word column.data, .sym ')', .word "LIKE".data,
          .word "lower".data, .sym '(', .str u, .sym ')']
      = some (decide (row.ZARCHIVED = 0) && (decide (row.ZTRASHED = 0) && b)) := by
  rcases hc with rfl | rfl
  · refine ⟨sqlLike (sqlLower (.text row.ZTITLE.data)) (sqlLower (.text u)), ?_⟩
    rw [← sqlEq_int, ← sqlEq_int]
    simp [conditionValue, splitKeyword, Token.isKw, anyTrue, allTrue, comparisonValue,
      splitComparison, operandValue, wordValue, digitsValue]
  · refine ⟨sqlLike (sqlLower (.text row.ZTEXT.data)) (sqlLower (.text u)), ?_⟩
    rw [← sqlEq_int, ← sqlEq_int]
    simp [conditionValue, splitKeyword, Token.isKw, anyTrue, allTrue, comparisonValue,
      splitComparison, operandValue, wordValue, digitsValue]

theorem note_query_data (column s : String) (i : Int) :
    (notesSelect ++ likeFilter column s ++ notesOrder ++ " LIMIT " ++ toString i).data
      = (notesSelect ++ ("lower(" ++ column ++ ") LIKE lower('")).data
        ++ (('%' :: s.data ++ ['%'])
          ++ (("')" ++ notesOrder ++ " LIMIT ").data ++ (toString i).data)) := by
  have h1 : (") LIKE lower('%" : String).data = (") LIKE lower('" : String).data ++ ['%'] := by
    decide
  have h2 : ("%')" : String).data = '%' :: ("')" : String).data := by decide
  simp only [likeFilter, String.data_append, h1, h2, List.append_assoc, List.cons_append,
    List.nil_append, List.singleton_append]

set_option maxRecDepth 100000 in
theorem lex_recent :
    (recentQuery ++ " LIMIT ").data.foldl lexStep { toks := [], mode := .blank }
      = { toks := [.word "SELECT".data, .word "DISTINCT".data,
            .word "ZUNIQUEIDENTIFIER".data, .sym ',', .word "ZTITLE".data, .word "FROM".data,
            .word "ZSFNOTE".data, .word "WHERE".data, .word "ZARCHIVED".data, .sym '=',
            .word "0".data, .word "AND".data, .word "ZTRASHED".data, .sym '=', .word "0".data,
            .word "ORDER".data, .word "BY".data, .word "ZMODIFICATIONDATE".data,
            .word "DESC".data, .word "LIMIT".data],
          mode := .blank } := by
  decide

theorem filtersHidden_of_eq (q : String)
    (h : ∀ row : NoteRecord, ∃ b, sqlSelects q row
      = some (decide (row.ZARCHIVED = 0) && (decide (row.ZTRASHED = 0) && b))) :
    FiltersHidden q := by
  intro row
  obtain ⟨b, hb⟩ := h row
  refine ⟨⟨_, hb⟩, ?_⟩
  intro ht
  rw [hb] at ht
  simp only [Option.some.injEq, Bool.and_eq_true, decide_eq_true_eq] at ht
  exact ⟨ht.1, ht.2.1⟩

theorem filtersHidden_recent (i : Int) :
    FiltersHidden (recentQuery ++ " LIMIT " ++ toString i) := by
  apply filtersHidden_of_eq
  intro row
  obtain ⟨more, hm⟩ := lex_outside (toString i).data (toString_int_no_quote i)
    ((recentQuery ++ " LIMIT ").data.foldl lexStep { toks := [], mode := .blank })
    (by rw [lex_recent]; exact Or.inl rfl)
  rw [lex_recent] at hm
  refine ⟨true, ?_⟩
  unfold sqlSelects sqlTokens
  rw [String.data_append, List.foldl_append, lex_recent, hm]
  simp only []
  have hw : whereTokens ([.word "SELECT".data, .word "DISTINCT".data,
        .word "ZUNIQUEIDENTIFIER".data, .sym ',', .word "ZTITLE".data, .word "FROM".data,
        .word "ZSFNOTE".data, .word "WHERE".data, .word "ZARCHIVED".data, .sym '=',
        .word "0".data, .word "AND".data, .word "ZTRASHED".data, .sym '=', .word "0".data,
        .word "ORDER".data, .word "BY".data, .word "ZMODIFICATIONDATE".data,
        .word "DESC".data, .word "LIMIT".data] ++ more)
      = some [.word "ZARCHIVED".data, .sym '=', .word "0".data, .word "AND".data,
          .word "ZTRASHED".data, .sym '=', .word "0".data] := rfl
  rw [hw]
  simp only []
  rw [← sqlEq_int, ← sqlEq_int]
  simp [conditionValue, splitKeyword, Token.isKw, anyTrue, allTrue, comparisonValue,
    splitComparison, operandValue, wordValue, digitsValue]

theorem filtersHidden_notes (column : String) (hc : column = "ZTITLE" ∨ column = "ZTEXT")
    (s : String) (hs : '\'' ∉ s.data) (i : Int) :
    FiltersHidden (notesSelect ++ likeFilter column s ++ notesOrder ++ " LIMIT " ++ toString i) := by
  apply filtersHidden_of_eq
  intro row
  have hhead : (notesSelect ++ ("lower(" ++ column ++ ") LIKE lower('")).data.foldl lexStep
      { toks := [], mode := .blank } = { toks := notesHeadTokens column, mode := .inStr [] } := by
    rcases hc with rfl | rfl
    · exact lex_title_head
    · exact lex_text_head
  have hu : '\'' ∉ ('%' :: s.data ++ ['%']) := by
    intro hm
    simp only [List.cons_append, List.mem_cons, List.mem_append, List.mem_singleton,
      List.not_mem_nil, or_false] at hm
    rcases hm with e | e | e
    · revert e; decide
    · exact hs e
    · revert e; decide
  obtain ⟨more, hm⟩ := lex_pattern _ _ ('%' :: s.data ++ ['%']) (toString i).data hhead hu
    (toString_int_no_quote i)
  obtain ⟨b, hb⟩ := conditionValue_notes column hc ('%' :: s.data ++ ['%']) row
  refine ⟨b, ?_⟩
  unfold sqlSelects sqlTokens
  rw [note_query_data, hm]
  simp only []
  rw [whereTokens_notes column hc]
  exact hb

theorem replaceSpaceChars_no_quote (u : List Char) (h : '\'' ∉ u) :
    '\'' ∉ replaceSpaceChars u := by
  induction u with
  | nil => simp [replaceSpaceChars]
  | cons c u ih =>
    have hc : c ≠ '\'' := fun e => h (by simp [e])
    have hu : '\'' ∉ u := fun e => h (List.mem_cons_of_mem _ e)
    unfold replaceSpaceChars
    split
    · intro hm
      simp only [List.mem_cons] at hm
      rcases hm with e | e | e | e
      · revert e; decide
      · revert e; decide
      · revert e; decide
      · exact ih hu e
    · intro hm
      rcases List.mem_cons.1 hm with e | e
      · exact hc e.symm
      · exact ih hu e

section Orchestrator
variable {σ ε : Type}

/-- Every query of a gap search over a note template, for a text without quote, lets
through only rows that are neither archived nor trashed. -/
theorem BearDB.gapQuery_filtersHidden (Sprintf : Formatter) (hS : GoFmt Sprintf)
    (db : BearDB σ ε) (T column : String) (hc : column = "ZTITLE" ∨ column = "ZTEXT")
    (hT : ∀ s, Sprintf T [.str s] = notesSelect ++ likeFilter column s ++ notesOrder)
    (text : String) (ht : '\'' ∉ text.data) (w : World σ) :
    ∃ qs, (db.gapQuery Sprintf T text w).2.log = w.log ++ qs ∧
      ∀ q, q ∈ qs → FiltersHidden q := by
  have h1 : FiltersHidden (db.limitQuery Sprintf (Sprintf T [.str text])) := by
    rw [BearDB.limitQuery_eq Sprintf hS, hT]
    exact filtersHidden_notes column hc text ht db.limit
  have h2 : FiltersHidden
      (db.limitQuery Sprintf (Sprintf T [.str (Join (Split text " ") "% %")])) := by
    rw [BearDB.limitQuery_eq Sprintf hS, hT, Join_Split_space]
    exact filtersHidden_notes column hc _ (replaceSpaceChars_no_quote _ ht) db.limit
  rcases BearDB.gapQuery_log Sprintf db T text w with h | h
  · refine ⟨_, h, ?_⟩
    intro q hq
    rw [List.mem_singleton.1 hq]
    exact h1
  · refine ⟨_, h, ?_⟩
    intro q hq
    simp only [List.mem_cons, List.mem_singleton, List.not_mem_nil, or_false] at hq
    rcases hq with rfl | rfl
    · exact h1
    · exact h2

set_option maxRecDepth 100000 in
/-- C11, as stated, fails: the search text `') OR lower(ZTITLE) LIKE lower('` has a quote
that closes the string literal of the pattern, so that the first query of
`SearchNotesByTitle` has the condition `ZARCHIVED=0 AND ZTRASHED=0 AND lower(ZTITLE) LIKE
lower('%') OR lower(ZTITLE) LIKE lower('%')`, which lets through a note that is archived
and trashed. -/
theorem filtering_invariant_counterexample :
    ((scriptedDB [] []).SearchNotesByTitle modelSprintf injectedText world0).2.log.head?
      = some injectedQuery ∧
    sqlSelects injectedQuery hiddenNote = some true ∧
    hiddenNote.ZARCHIVED = 1 ∧ hiddenNote.ZTRASHED = 1 := by
  refine ⟨by decide, by decide, rfl, rfl⟩

/-- C11, amended (filtering invariant): for every input text without a single-quote
character, every query that `GetRecent`, `SearchNotesByTitle`, `SearchNotesByText` and
`SearchNotes` hand to the store has a `WHERE` clause in which `ZARCHIVED=0` and
`ZTRASHED=0` are conjuncts of the whole condition: whatever else the text holds, the query
can only select rows that are neither archived nor trashed. -/
theorem filtering_invariant (Sprintf : Formatter) (hS : GoFmt Sprintf) (db : BearDB σ ε)
    (text : String) (w : World σ) (ht : '\'' ∉ text.data) :
    ∀ req, req ∈ [Request.getRecent, Request.searchNotesByTitle text,
        Request.searchNotesByText text, Request.searchNotes text] →
      ∃ qs, (req.after Sprintf db w).log = w.log ++ qs ∧
        ∀ q, q ∈ qs → ∀ row : NoteRecord,
          (∃ b, sqlSelects q row = some b) ∧
            (sqlSelects q row = some true → row.ZARCHIVED = 0 ∧ row.ZTRASHED = 0) := by
  have hTitle := fun s => hS _ _ _ (goSprintf_notesByTitleQuery s)
  have hText := fun s => hS _ _ _ (goSprintf_notesByTextQuery s)
  intro req hreq
  simp only [List.mem_cons, List.mem_singleton, List.not_mem_nil, or_false] at hreq
  rcases hreq with rfl | rfl | rfl | rfl
  · refine ⟨_, BearDB.QueryNotes_log Sprintf db recentQuery w, ?_⟩
    intro q hq
    rw [List.mem_singleton.1 hq, BearDB.limitQuery_eq Sprintf hS]
    exact filtersHidden_recent db.limit
  · exact BearDB.gapQuery_filtersHidden Sprintf hS db notesByTitleQuery "ZTITLE" (Or.inl rfl)
      hTitle text ht w
  · exact BearDB.gapQuery_filtersHidden Sprintf hS db notesByTextQuery "ZTEXT" (Or.inr rfl)
      hText text ht w
  · obtain ⟨qs1, h1, hq1⟩ := BearDB.gapQuery_filtersHidden Sprintf hS db notesByTitleQuery
      "ZTITLE" (Or.inl rfl) hTitle text ht w
    obtain ⟨qs2, h2, hq2⟩ := BearDB.gapQuery_filtersHidden Sprintf hS db notesByTextQuery
      "ZTEXT" (Or.inr rfl) hText text ht (db.gapQuery Sprintf notesByTitleQuery text w).2
    rcases BearDB.SearchNotes_log Sprintf db text w with hl | hl
    · exact ⟨qs1, hl.trans h1, hq1⟩
    · refine ⟨qs1 ++ qs2, ?_, ?_⟩
      · show (db.SearchNotes Sprintf text w).2.log = _
        rw [hl]
        show (db.gapQuery Sprintf notesByTextQuery text
          (db.gapQuery Sprintf notesByTitleQuery text w).2).2.log = _
        rw [h2, h1, List.append_assoc]
      · intro q hm
        rcases List.mem_append.1 hm with hm | hm
        · exact hq1 q hm
        · exact hq2 q hm

theorem filtering_invariant_witness :
    ∃ qs, (Request.after modelSprintf (scriptedDB [] []) (Request.searchNotesByTitle "alpha b")
        world0).log = world0.log ++ qs ∧
      ∀ q, q ∈ qs → ∀ row : NoteRecord,
        (∃ b, sqlSelects q row = some b) ∧
          (sqlSelects q row = some true → row.ZARCHIVED = 0 ∧ row.ZTRASHED = 0) :=
  filtering_invariant modelSprintf goFmt_modelSprintf (scriptedDB [] []) "alpha b" world0
    (by decide) (Request.searchNotesByTitle "alpha b") (by simp)

end Orchestrator

end Db
